import Mathlib

/-!
Verification of the document-structuring and export pipeline of the
`handleEnglishBook` utility repository.

Strings are shallowly embedded as `List Char` (`Str`): JavaScript string
operations (`trim`, `split`, template literals, regex scans) become
executable functions on character lists.  JS `.length` counts UTF-16 code
units while `List Char` counts code points; the two agree on all inputs the
claims exercise (no characters beyond the basic multilingual plane appear).
JS `\s` additionally matches some exotic Unicode spaces; `isWS` below covers
the ASCII whitespace set plus NBSP, which is faithful on every input the
source can produce from its own literals and on all concrete inputs used.
All recursions are structural so that every definition evaluates inside the
kernel on concrete inputs.
-/

/-- Shallow embedding of a JavaScript string as a list of characters. -/
abbrev Str := List Char

/-- Convert a Lean string literal into the `Str` embedding. -/
def str (s : String) : Str := s.data

/-- Model of the JS `\s` character class (ASCII whitespace plus NBSP). -/
def isWS (c : Char) : Bool :=
  c == ' ' || c == '\t' || c == '\n' || c == '\r' ||
  c == '\x0b' || c == '\x0c' || c == ' '

/-- Model of JS `String.prototype.trim`. -/
def trimStr (l : Str) : Str :=
  ((l.dropWhile isWS).reverse.dropWhile isWS).reverse

/-- Fuel-driven digit renderer; `fuel` bounds the number of divisions by 10
and is always called with enough fuel (`n + 1` suffices since
`log10 n < n + 1`). -/
def natDigitsF : Nat → Nat → Str
  | 0, _ => []
  | fuel + 1, n =>
    if n < 10 then [Nat.digitChar n]
    else natDigitsF fuel (n / 10) ++ [Nat.digitChar (n % 10)]

/-- Decimal digit list of a natural number, as rendered by JS string
interpolation of a nonnegative integer (`String(n)`, `` `${n}` ``). -/
def natDigits (n : Nat) : Str := natDigitsF (n + 1) n

/-- Model of JS `String.prototype.padStart(k, '0')`. -/
def padStartZ (k : Nat) (l : Str) : Str :=
  List.replicate (k - l.length) '0' ++ l

/-- Model of JS `String.prototype.slice(-k)` (the last `k` characters,
or the whole string when it is shorter). -/
def lastN (k : Nat) (l : Str) : Str := l.drop (l.length - k)

/-- Numeric value of a digit list (also models `parseInt` on the
all-digit strings the source feeds it). -/
def digitsVal (l : Str) : Nat := l.foldl (fun a c => a * 10 + (c.toNat - 48)) 0

/-- Helper for `splitOnCh`. -/
def splitOnChGo (sep : Char) : Str → Str → List Str
  | [], acc => [acc.reverse]
  | c :: rest, acc =>
    if c = sep then acc.reverse :: splitOnChGo sep rest []
    else splitOnChGo sep rest (c :: acc)

/-- Model of JS `String.prototype.split(c)` for a single-character
separator (e.g. `text.split('\n')`). -/
def splitOnCh (sep : Char) (l : Str) : List Str := splitOnChGo sep l []

/-- Helper for `jsSplitWS`: `acc` holds the current chunk reversed and
`inSep` records whether the previous character was whitespace (so a
whitespace run is collapsed into a single separator). -/
def jsSplitGo : Str → Str → Bool → List Str
  | [], acc, _ => [acc.reverse]
  | c :: rest, acc, inSep =>
    if isWS c then
      if inSep then jsSplitGo rest acc true
      else acc.reverse :: jsSplitGo rest [] true
    else jsSplitGo rest (c :: acc) false

/-- Model of JS `s.split(/\s+/)`: chunks between maximal whitespace runs,
including an empty leading (resp. trailing) chunk when the string starts
(resp. ends) with whitespace, and `[""]` on the empty string. -/
def jsSplitWS (l : Str) : List Str := jsSplitGo l [] false

/-- Helper for `specTokenCount`: `inTok` records whether the previous
character belonged to a token. -/
def specTokenGo : Str → Bool → Nat
  | [], _ => 0
  | c :: rest, inTok =>
    if isWS c then specTokenGo rest false
    else (if inTok then 0 else 1) + specTokenGo rest true

/-- Number of whitespace-separated tokens of a string (maximal nonempty
runs of non-whitespace characters); this is the spec's reading of
"whitespace-token count". -/
def specTokenCount (l : Str) : Nat := specTokenGo l false


/-! ### Data model

`JVal` embeds the JavaScript values that flow through the metadata record
(`null` or a string); an absent object property is `Option.none` one level
up.  `Block` is the unified content-block shape produced by the three
extractors: the TXT/PDF paths leave `chapter`/`chapterIndex` absent, the
EPUB (markup) path fills them. -/

/-- A JavaScript value stored in a metadata field: `null` or a string. -/
inductive JVal where
  | jnull : JVal
  | jstr : Str → JVal
deriving DecidableEq, Repr

/-- JS truthiness of a `JVal` (`null` and `''` are falsy). -/
def JVal.truthy : JVal → Bool
  | .jnull => false
  | .jstr s => !(s.isEmpty)

/-- Block kind tag (the source's `type: 'heading' | 'paragraph'`). -/
inductive BType where
  | heading : BType
  | paragraph : BType
deriving DecidableEq, Repr

/-- A content block as built by the extractors (`{id, type, text, level?,
chapter?, chapterIndex?}`). -/
structure Block where
  id : Str
  btype : BType
  text : Str
  level : Option Nat
  chapter : Option Str
  chapterIndex : Option Nat
deriving DecidableEq, Repr

/-- A table-of-contents entry (`{title, page, level, id?, order?}`);
`id`/`order` are only set by the EPUB path. -/
structure TocEntry where
  title : Str
  page : Option Nat
  level : Nat
  id : Option Str
  order : Option Nat
deriving DecidableEq, Repr

/-- Caller-supplied metadata record: each field is absent (`none`) or a
JS value. -/
structure MetaIn where
  title : Option JVal := none
  author : Option JVal := none
  creator : Option JVal := none
  subject : Option JVal := none
  keywords : Option JVal := none
  creationDate : Option JVal := none
  modificationDate : Option JVal := none
  language : Option JVal := none
deriving DecidableEq, Repr

/-- Metadata of the document model; fields are `Option`-valued so that
"the property is present on the result object" is expressible
(`createDocumentStructure` always fills all eight with `some _`). -/
structure MetaOut where
  title : Option JVal
  author : Option JVal
  creator : Option JVal
  subject : Option JVal
  keywords : Option JVal
  creationDate : Option JVal
  modificationDate : Option JVal
  language : Option JVal
deriving DecidableEq, Repr

/-- The derived `stats` record. -/
structure Stats where
  totalParagraphs : Nat
  totalImages : Nat
  totalTocItems : Nat
  totalWords : Nat
deriving DecidableEq, Repr

/-- The unified document model, polymorphic in the image and TOC element
types exactly as the untyped source is (only their array lengths are
consumed by the builder). -/
structure DocModel (ι τ : Type) where
  metadata : MetaOut
  tableOfContents : List τ
  content : List Block
  images : List ι
  stats : Stats
deriving DecidableEq, Repr

/-- Per-block summand of `stats.totalWords`:
`item.text ? item.text.split(/\s+/).length : 0`. -/
def blockWordCount (b : Block) : Nat :=
  if b.text.isEmpty then 0 else (jsSplitWS b.text).length

/-- Merged metadata field: the object-literal default
(`metadata.f || fallback`) is overridden by the trailing `...metadata`
spread whenever the caller supplied the property, so the result is the raw
supplied value when present and the fallback otherwise. -/
def mergeField (supplied : Option JVal) (fallback : JVal) : Option JVal :=
  match supplied with
  | some v => some v
  | none => some fallback

/-- Model of `createDocumentStructure(metadata, content, images, toc)`
(src/parser.js): fills metadata defaults, copies the three arrays, and
computes the derived `stats`. -/
def createDocumentStructure {ι τ : Type} (metadata : MetaIn)
    (content : List Block) (images : List ι) (toc : List τ) :
    DocModel ι τ :=
  { metadata :=
      { title := mergeField metadata.title (.jstr [])
        author := mergeField metadata.author (.jstr [])
        creator := mergeField metadata.creator (.jstr [])
        subject := mergeField metadata.subject (.jstr [])
        keywords := mergeField metadata.keywords (.jstr [])
        creationDate := mergeField metadata.creationDate .jnull
        modificationDate := mergeField metadata.modificationDate .jnull
        language := mergeField metadata.language (.jstr (str "zh-CN")) }
    tableOfContents := toc
    content := content
    images := images
    stats :=
      { totalParagraphs := content.length
        totalImages := images.length
        totalTocItems := toc.length
        totalWords := content.foldl (fun sum b => sum + blockWordCount b) 0 } }

/-! ### Unique identifier generator

`generateUniqueId` reads the clock (`Date.now()`, passed here explicitly as
`timestamp`) and a counter.  The parser-module version keeps a module-level
counter advanced by `(idCounter + 1) % 10000` per call; the standalone
`uniqueId.js` version derives it from `Math.floor(Math.random() * 10)`
(passed here as `random`). -/

/-- Shared body of both generators: last 12 digits of the millisecond
timestamp, then the counter zero-padded to 4 digits. -/
def uniqueIdCore (timestamp counter : Nat) : Str :=
  lastN 12 (natDigits timestamp) ++ padStartZ 4 (natDigits counter)

/-- Model of `generateUniqueId` of src/parser.js: advances the module counter and
returns the id together with the new counter state. -/
def generateUniqueId (timestamp idCounter : Nat) : Str × Nat :=
  let c := (idCounter + 1) % 10000
  (uniqueIdCore timestamp c, c)

/-- Model of `generateUniqueId` of uniqueId.js: the counter comes from
`Math.floor(Math.random() * 10)` (a natural below 10). -/
def generateUniqueIdStandalone (timestamp random : Nat) : Str :=
  uniqueIdCore timestamp ((random + 1) % 10000)


/-! ### safeParseDate (src/parsers/pdfParser.js)

The input is `null`/`undefined` (`none`) or a string.  The body strips a
leading `D:`, keeps only digits, pads with `'0'` to 14 characters, slices
out Y/M/D/h/m/s, and feeds the assembled `YYYY-MM-DDTHH:MM:SSZ` string to
`new Date(...).toISOString()`; the `try`/`catch` maps an invalid date to
`null`.  ECMAScript rejects out-of-range components (month outside 1–12,
day outside the month's calendar length, out-of-range time except the
special `24:00:00`, which rolls over to the next day);
`toISOString` renders `YYYY-MM-DDTHH:mm:ss.sssZ`, switching to the
expanded `+YYYYYY` year form beyond year 9999. -/

/-- ASCII decimal digit test (the JS `\d` class). -/
def isDigitCh (c : Char) : Bool := '0' ≤ c && c ≤ '9'

/-- Model of `replace(/^D:/, '')`. -/
def stripDColon : Str → Str
  | 'D' :: ':' :: rest => rest
  | l => l

/-- Model of `padEnd(14, '0')`. -/
def padEnd14 (l : Str) : Str := l ++ List.replicate (14 - l.length) '0'

/-- Gregorian leap-year test. -/
def isLeap (y : Nat) : Bool := y % 4 == 0 && (y % 100 != 0 || y % 400 == 0)

/-- Days in a month of the proleptic Gregorian calendar (0 on an invalid
month number so that any day count is rejected). -/
def daysInMonth (y m : Nat) : Nat :=
  if m = 1 ∨ m = 3 ∨ m = 5 ∨ m = 7 ∨ m = 8 ∨ m = 10 ∨ m = 12 then 31
  else if m = 4 ∨ m = 6 ∨ m = 9 ∨ m = 11 then 30
  else if m = 2 then (if isLeap y then 29 else 28)
  else 0

/-- Calendar successor of a day (used for the `T24:00:00Z` rollover). -/
def nextDay (y m d : Nat) : Nat × Nat × Nat :=
  if d < daysInMonth y m then (y, m, d + 1)
  else if m < 12 then (y, m + 1, 1)
  else (y + 1, 1, 1)

/-- Model of `Date.prototype.toISOString` on a UTC midnight-second date:
`YYYY-MM-DDTHH:MM:SS.000Z`, with the `+YYYYYY` expanded form past year
9999. -/
def renderISO (y mo da h mi se : Nat) : Str :=
  (if y < 10000 then padStartZ 4 (natDigits y) else '+' :: padStartZ 6 (natDigits y)) ++
  '-' :: padStartZ 2 (natDigits mo) ++ '-' :: padStartZ 2 (natDigits da) ++
  'T' :: padStartZ 2 (natDigits h) ++ ':' :: padStartZ 2 (natDigits mi) ++
  ':' :: padStartZ 2 (natDigits se) ++ str ".000Z"

/-- Model of `safeParseDate` (pdfParser.js lines 9–18). -/
def safeParseDate (dateStr : Option Str) : Option Str :=
  match dateStr with
  | none => none
  | some s =>
    if s.isEmpty then none
    else
      let cleaned := padEnd14 ((stripDColon s).filter isDigitCh)
      let y := digitsVal (cleaned.take 4)
      let mo := digitsVal ((cleaned.drop 4).take 2)
      let da := digitsVal ((cleaned.drop 6).take 2)
      let h := digitsVal ((cleaned.drop 8).take 2)
      let mi := digitsVal ((cleaned.drop 10).take 2)
      let se := digitsVal ((cleaned.drop 12).take 2)
      if 1 ≤ mo ∧ mo ≤ 12 ∧ 1 ≤ da ∧ da ≤ daysInMonth y mo ∧
          ((h ≤ 23 ∧ mi ≤ 59 ∧ se ≤ 59) ∨ (h = 24 ∧ mi = 0 ∧ se = 0)) then
        if h = 24 then
          some (renderISO (nextDay y mo da).1 (nextDay y mo da).2.1
            (nextDay y mo da).2.2 0 0 0)
        else some (renderISO y mo da h mi se)
      else none


/-! ### TXT parser (src/parsers/txtParser.js)

`extractStructureFromText` walks the `'\n'`-split lines with one state
record: a paragraph accumulator, a shared block counter (`paragraphIndex`),
an `inTOCSection` flag, and the two output arrays.  The regex tests of
`isLikelyHeading`/`estimateHeadingLevel` and the TOC-line patterns are
translated below; all the character classes involved are disjoint from
their follow-sets, so the greedy scans are deterministic, and the single
lazy group (`(.+?)` of the dotted TOC line) is realised by trying split
points left to right. -/

/-- ASCII upper-case letter (the `A-Z` class). -/
def isUpperA (c : Char) : Bool := 'A' ≤ c && c ≤ 'Z'

/-- Characters the JS `.` metacharacter does not match (line terminators). -/
def dotCh (c : Char) : Bool :=
  !(c == '\n' || c == '\r' || c == ' ' || c == ' ')

/-- The `[一二三四五六七八九十\d]` class of the TXT chapter regexes. -/
def isCNnumD (c : Char) : Bool :=
  c == '一' || c == '二' || c == '三' || c == '四' || c == '五' ||
  c == '六' || c == '七' || c == '八' || c == '九' || c == '十' || isDigitCh c

/-- The `[章节部分篇卷]` class. -/
def isCNunit (c : Char) : Bool :=
  c == '章' || c == '节' || c == '部' || c == '分' || c == '篇' || c == '卷'

/-- Test of `/^\d+[\.、]\s*/` (the trailing `\s*` never affects a test). -/
def numDotTest (l : Str) : Bool :=
  let (ds, r) := l.span isDigitCh
  !ds.isEmpty && (r.head? == some '.' || r.head? == some '、')

/-- Test of `/^第[一二三四五六七八九十\d]+[章节部分篇卷]/`. -/
def cnHeadTest (l : Str) : Bool :=
  match l with
  | '第' :: rest =>
    let (ns, r) := rest.span isCNnumD
    !ns.isEmpty && (match r.head? with | some c => isCNunit c | none => false)
  | _ => false

/-- Model of `isLikelyHeading(line, nextLine)` of txtParser.js: `line` is the
trimmed current line, `nextRaw` the raw lookahead line (absent on the last
line; note `nextLine && nextLine.trim().length === 0` is false both for a
missing and for an already-empty lookahead). -/
def isLikelyHeading (line : Str) (nextRaw : Option Str) : Bool :=
  if line.length > 100 then false
  else if !line.isEmpty && line.all (fun c => isUpperA c || isWS c) &&
      line.length < 50 && decide (3 < line.length) then true
  else if numDotTest line then true
  else if cnHeadTest line then true
  else if (match nextRaw with
           | some nl => !nl.isEmpty && (trimStr nl).isEmpty
           | none => false) then true
  else if line.length < 50 && !(line.contains '。') && !(line.contains '，') then true
  else false

/-- Greedy repetition count of `(\d+[\.、]\s*)+` at the start of the string
(each repetition carries exactly one separator, so
`match[0].split(/[\.、]/).length - 1` equals this count); 0 when the
pattern does not match. -/
def numRepCount : Nat → Str → Nat
  | 0, _ => 0
  | fuel + 1, l =>
    let (ds, r1) := l.span isDigitCh
    if ds.isEmpty then 0
    else
      match r1 with
      | c :: r2 =>
        if c == '.' || c == '、' then 1 + numRepCount fuel (r2.dropWhile isWS)
        else 0
      | [] => 0

/-- The single unit character captured by
`/^第[一二三四五六七八九十\d]+([章节部分篇卷])/`, when the pattern
matches. -/
def cnUnitOf (l : Str) : Option Char :=
  match l with
  | '第' :: rest =>
    let (ns, r) := rest.span isCNnumD
    if ns.isEmpty then none
    else match r.head? with
         | some c => if isCNunit c then some c else none
         | none => none
  | _ => none

/-- Length-bucket fallback of the level estimator. -/
def lengthLevel (t : Str) : Nat :=
  if t.length < 20 then 1 else if t.length < 40 then 2 else 3

/-- Model of `estimateHeadingLevel` of txtParser.js. -/
def estimateHeadingLevelTxt (t : Str) : Nat :=
  let reps := numRepCount (t.length + 1) t
  if reps ≠ 0 then reps
  else
    match cnUnitOf t with
    | some u =>
      if u == '章' || u == '卷' then 1
      else if u == '节' || u == '篇' then 2
      else lengthLevel t
    | none => lengthLevel t

/-- Suffix matcher of `/^(.+?)\s+\.{3,}\s*(\d+)$/` after the title:
`\s+ \.{3,} \s* (\d+)` against the rest of the line (all four chunks use
pairwise disjoint character classes, so greedy scanning is exact).
Returns the captured page number. -/
def tocDotsSuffix (r : Str) : Option Nat :=
  let (w, r1) := r.span isWS
  if w.isEmpty then none
  else
    let (dots, r2) := r1.span (fun c => c == '.')
    if dots.length < 3 then none
    else
      let (_, r3) := r2.span isWS
      let (ds, r4) := r3.span isDigitCh
      if ds.isEmpty || !r4.isEmpty then none else some (digitsVal ds)

/-- Lazy `(.+?)` scan of the dotted TOC line: split points are tried left
to right, the title being one character at minimum and never crossing a
line terminator. -/
def tocDotsGo : Str → Str → Option (Str × Nat)
  | _, [] => none
  | accRev, c :: r =>
    if dotCh c then
      match tocDotsSuffix r with
      | some pg => some ((c :: accRev).reverse, pg)
      | none => tocDotsGo (c :: accRev) r
    else none

/-- Match of `/^(.+?)\s+\.{3,}\s*(\d+)$/` on a whole line: the title and
the page number. -/
def tocDotsMatch (line : Str) : Option (Str × Nat) := tocDotsGo [] line

/-- Match test of `/^(\d+[\.、]\s*.+?)$/`: digits, a separator, then
(splitting the remainder into an optional whitespace prefix and a
nonempty terminator-free tail) at least one more matchable character. -/
def tailDotMatch : Str → Bool
  | [] => false
  | c :: rest => (c :: rest).all dotCh || (isWS c && tailDotMatch rest)

/-- Test of `/^(\d+[\.、]\s*.+?)$/`. -/
def tocNumLine (line : Str) : Bool :=
  let (ds, r1) := line.span isDigitCh
  if ds.isEmpty then false
  else
    match r1 with
    | c :: r2 => (c == '.' || c == '、') && tailDotMatch r2
    | [] => false

/-- Model of `line.match(dots) || line.match(numbered)` with the fields the source
reads from the match object: title (`tocMatch[1] || tocMatch[0]`) and page
(`tocMatch[2] ? parseInt(tocMatch[2]) : null`). -/
def tocItemMatch (line : Str) : Option (Str × Option Nat) :=
  match tocDotsMatch line with
  | some (t, pg) => some (t, some pg)
  | none => if tocNumLine line then some (line, none) else none

/-- Test of `/^[目目录录]{1,2}$/i || /^目\s*录$/i` (the TOC-region
marker). -/
def tocMarker (line : Str) : Bool :=
  ((line.length == 1 || line.length == 2) &&
    line.all (fun c => c == '目' || c == '录')) ||
  (match line with
   | '目' :: rest =>
     (match rest.reverse with
      | '录' :: mid => mid.all isWS
      | _ => false)
   | _ => false)

/-- Ids of the TXT/PDF block streams (`` `para_${id}` ``/`` `heading_${id}` ``). -/
def mkParaId (k : Nat) : Str := str "para_" ++ natDigits k

/-- Heading id of the TXT/PDF block streams. -/
def mkHeadId (k : Nat) : Str := str "heading_" ++ natDigits k

/-- Loop state of `extractStructureFromText`. -/
structure TxtSt where
  paras : List Block
  toc : List TocEntry
  cur : Str
  ctr : Nat
  inTOC : Bool
deriving Repr

/-- Flush the paragraph accumulator (`if (currentParagraph.trim().length >
0) { push; reset }`; the accumulator is only reset when a block is
emitted, exactly as in the source). -/
def txtFlushPara (st : TxtSt) : TxtSt :=
  if (trimStr st.cur).isEmpty then st
  else
    { st with
      paras := st.paras ++
        [⟨mkParaId st.ctr, .paragraph, trimStr st.cur, none, none, none⟩]
      ctr := st.ctr + 1
      cur := [] }

/-- Body-line handling of `extractStructureFromText` (blank line flushes;
a likely heading flushes then emits a heading block; otherwise the line is
joined into the accumulator). -/
def txtBody (st : TxtSt) (line : Str) (nextRaw : Option Str) : TxtSt :=
  if line.isEmpty then txtFlushPara st
  else if isLikelyHeading line nextRaw then
    let st' := txtFlushPara st
    { st' with
      paras := st'.paras ++
        [⟨mkHeadId st'.ctr, .heading, line, some (estimateHeadingLevelTxt line),
          none, none⟩]
      ctr := st'.ctr + 1 }
  else { st with cur := st.cur ++ (if st.cur.isEmpty then line else ' ' :: line) }

/-- One iteration of the line loop: the TOC-marker test, the TOC-region
handling (a matching line is consumed as a TOC entry; a blank or long line
clears the flag and falls through to body handling, any other line falls
through with the flag still set), then body handling. -/
def txtStep (st : TxtSt) (line : Str) (nextRaw : Option Str) : TxtSt :=
  if tocMarker line then { st with inTOC := true }
  else if st.inTOC then
    match tocItemMatch line with
    | some (title, pg) =>
      { st with
        toc := st.toc ++ [⟨title, pg, estimateHeadingLevelTxt title, none, none⟩] }
    | none =>
      let st' :=
        if line.isEmpty || decide (50 < line.length) then { st with inTOC := false }
        else st
      txtBody st' line nextRaw
  else txtBody st line nextRaw

/-- The line loop; the current line is trimmed, the lookahead is the raw
next line. -/
def txtLoop : TxtSt → List Str → TxtSt
  | st, [] => st
  | st, l :: rest => txtLoop (txtStep st (trimStr l) rest.head?) rest

/-- Model of `extractStructureFromText` (txtParser.js lines 82–163):
returns the block array and the TOC array. -/
def extractStructureFromText (text : Str) : List Block × List TocEntry :=
  let st := txtLoop ⟨[], [], [], 0, false⟩ (splitOnCh '\n' text)
  let st := txtFlushPara st
  (st.paras, st.toc)


/-! ### PDF parser (src/parsers/pdfParser.js)

`extractParagraphs` walks `text.split(/\r?\n/)`: blank lines are skipped
outright (no flush), a heading flushes the accumulator and emits a heading
block, anything else joins the accumulator; ids come from one shared
counter. -/

/-- The `[一二三四五六七八九十百]` class of the PDF chapter regexes
(no `\d` here, unlike the TXT one). -/
def isCNnumB (c : Char) : Bool :=
  c == '一' || c == '二' || c == '三' || c == '四' || c == '五' ||
  c == '六' || c == '七' || c == '八' || c == '九' || c == '十' || c == '百'

/-- Drop a single trailing `'\r'` (so that splitting on `'\n'` then
applying this models `split(/\r?\n/)`). -/
def dropLastCR (l : Str) : Str :=
  match l.reverse with
  | '\r' :: r => r.reverse
  | _ => l

/-- Model of `text.split(/\r?\n/)`. -/
def splitLinesRN (text : Str) : List Str := (splitOnCh '\n' text).map dropLastCR

/-- Test of `/^第[一二三四五六七八九十百]+章/`. -/
def cn1AtStart (l : Str) : Bool :=
  match l with
  | '第' :: rest =>
    let (ns, r) := rest.span isCNnumB
    !ns.isEmpty && r.head? == some '章'
  | _ => false

/-- Test of `/^第\d+节/`. -/
def cn2AtStart (l : Str) : Bool :=
  match l with
  | '第' :: rest =>
    let (ns, r) := rest.span isDigitCh
    !ns.isEmpty && r.head? == some '节'
  | _ => false

/-- Test of `/^Chapter\s+\d+/` (case-sensitive; the trailing `\d+`
requires one digit for a test). -/
def chapterNumAtStart (l : Str) : Bool :=
  match l with
  | 'C' :: 'h' :: 'a' :: 'p' :: 't' :: 'e' :: 'r' :: rest =>
    let (w, r) := rest.span isWS
    !w.isEmpty && (match r.head? with | some c => isDigitCh c | none => false)
  | _ => false

/-- Unanchored containment test of `/第[一二三四五六七八九十百]+章/`. -/
def cn1Contains : Str → Bool
  | [] => false
  | c :: rest => cn1AtStart (c :: rest) || cn1Contains rest

/-- Unanchored containment test of `/第\d+节/`. -/
def cn2Contains : Str → Bool
  | [] => false
  | c :: rest => cn2AtStart (c :: rest) || cn2Contains rest

/-- Model of `isHeading(line, next)` of pdfParser.js. -/
def isHeadingPdf (line next : Str) : Bool :=
  (cn1AtStart line || cn2AtStart line || chapterNumAtStart line) ||
  (!line.isEmpty && line.all (fun c => isUpperA c || isWS c) && line.length < 50) ||
  numDotTest line ||
  next.isEmpty

/-- Model of `estimateHeadingLevel` of pdfParser.js: the two containment tests,
then the lazy `^(\d+(\.|、))+?` match — which, being lazy with no
continuation, always captures exactly one `digits+separator` group, whose
`split(/\.|、/)` has length 2 — else 3. -/
def estimateHeadingLevelPdf (line : Str) : Nat :=
  if cn1Contains line then 1
  else if cn2Contains line then 2
  else if numDotTest line then 2
  else 3

/-- Loop state of the PDF `extractParagraphs`. -/
structure PdfSt where
  paras : List Block
  cur : Str
  ctr : Nat
deriving Repr

/-- Flush of the PDF accumulator (`if (current) { push({text: current}) }`
— note the pushed text is not re-trimmed). -/
def pdfFlush (st : PdfSt) : PdfSt :=
  if st.cur.isEmpty then st
  else
    { st with
      paras := st.paras ++ [⟨mkParaId st.ctr, .paragraph, st.cur, none, none, none⟩]
      ctr := st.ctr + 1
      cur := [] }

/-- One iteration of the PDF line loop (`if (!line) continue;` skips blank
lines without flushing). -/
def pdfStep (st : PdfSt) (rawLine : Str) (rawNext : Option Str) : PdfSt :=
  let line := trimStr rawLine
  if line.isEmpty then st
  else
    let next := match rawNext with | some r => trimStr r | none => []
    if isHeadingPdf line next then
      let st' := pdfFlush st
      { st' with
        paras := st'.paras ++
          [⟨mkHeadId st'.ctr, .heading, line, some (estimateHeadingLevelPdf line),
            none, none⟩]
        ctr := st'.ctr + 1 }
    else { st with cur := st.cur ++ (if st.cur.isEmpty then line else ' ' :: line) }

/-- The PDF line loop. -/
def pdfLoop : PdfSt → List Str → PdfSt
  | st, [] => st
  | st, l :: rest => pdfLoop (pdfStep st l rest.head?) rest

/-- Model of the PDF `extractParagraphs` (pdfParser.js lines 77–110). -/
def extractParagraphsPdf (text : Str) : List Block :=
  (pdfFlush (pdfLoop ⟨[], [], 0⟩ (splitLinesRN text))).paras


/-! ### EPUB markup extractor (src/parsers/epubParser.js)

`extractParagraphsFromHTML` strips `<script>`/`<style>` blocks, collects
every `<h1..6>…</h1..6>` span, then every `<p>…</p>` span (all scans
case-insensitive, lazy bodies, `.` not crossing line terminators for the
heading/paragraph bodies), pushing blocks into one array whose current
length numbers each id; if nothing was pushed, it falls back to the
non-blank lines of the fully stripped text.  `stripHTML` replaces tags by
spaces, decodes five entities in a fixed order, collapses whitespace runs,
and trims. -/

/-- ASCII lower-casing (all case-insensitive scans below only compare
against ASCII letter patterns). -/
def lowerA (c : Char) : Char :=
  if 'A' ≤ c && c ≤ 'Z' then Char.ofNat (c.toNat + 32) else c

/-- Case-insensitive test that `pat` (given lower-case) starts the
string. -/
def ciLeads : Str → Str → Bool
  | [], _ => true
  | _ :: _, [] => false
  | p :: ps, c :: cs => p == lowerA c && ciLeads ps cs

/-- After `"<" ++ tagName` (case-insensitively) at the head of `s`, consume
`[^>]*` and the closing `'>'` of the opening tag; `none` when the opening
tag does not match here. -/
def openTagAfter (tagName : Str) (s : Str) : Option Str :=
  if ciLeads ('<' :: tagName) s then
    let r := s.drop (tagName.length + 1)
    let (_, r2) := r.span (fun c => !(c == '>'))
    match r2 with
    | '>' :: r3 => some r3
    | _ => none
  else none

/-- Lazy `[\s\S]*?` scan to the case-insensitive `close` literal; returns
the remainder after it. -/
def skipToClose (close : Str) : Nat → Str → Option Str
  | 0, _ => none
  | fuel + 1, s =>
    if ciLeads close s then some (s.drop close.length)
    else match s with
         | [] => none
         | _ :: rest => skipToClose close fuel rest

/-- Fuel-driven body of `stripTagBlocks`. -/
def stripTagBlocksGo (tagName close : Str) : Nat → Str → Str
  | 0, s => s
  | _, [] => []
  | fuel + 1, c :: rest =>
    match openTagAfter tagName (c :: rest) with
    | some afterOpen =>
      match skipToClose close (afterOpen.length + 1) afterOpen with
      | some afterClose => stripTagBlocksGo tagName close fuel afterClose
      | none => c :: stripTagBlocksGo tagName close fuel rest
    | none => c :: stripTagBlocksGo tagName close fuel rest

/-- Model of `replace(/<tag[^>]*>[\s\S]*?<\/tag>/gi, '')` for
`tag ∈ {script, style}`. -/
def stripTagBlocks (tagName : Str) (s : Str) : Str :=
  stripTagBlocksGo tagName (str "</" ++ tagName ++ str ">") (s.length + 1) s

/-- Fuel-driven body of the `/<[^>]+>/g → ' '` tag replacement. -/
def stripTagsGo : Nat → Str → Str
  | 0, s => s
  | _, [] => []
  | fuel + 1, c :: rest =>
    if c == '<' then
      let (body, r2) := rest.span (fun d => !(d == '>'))
      match r2 with
      | '>' :: r3 =>
        if body.isEmpty then c :: stripTagsGo fuel rest
        else ' ' :: stripTagsGo fuel r3
      | _ => c :: stripTagsGo fuel rest
    else c :: stripTagsGo fuel rest

/-- Model of `replace(/<[^>]+>/g, ' ')`. -/
def stripTags (s : Str) : Str := stripTagsGo (s.length + 1) s

/-- Fuel-driven body of the literal global replacement. -/
def replaceAllGo (pat rep : Str) : Nat → Str → Str
  | 0, s => s
  | _, [] => []
  | fuel + 1, c :: rest =>
    if pat.isPrefixOf (c :: rest) then
      rep ++ replaceAllGo pat rep fuel ((c :: rest).drop pat.length)
    else c :: replaceAllGo pat rep fuel rest

/-- Global replacement of a (nonempty) literal pattern, as
`replace(/pat/g, rep)` for the entity patterns. -/
def replaceAllStr (pat rep s : Str) : Str := replaceAllGo pat rep (s.length + 1) s

/-- Model of `replace(/\s+/g, ' ')`: collapse every whitespace run to one space. -/
def collapseWSGo : Str → Bool → Str
  | [], _ => []
  | c :: rest, inRun =>
    if isWS c then
      (if inRun then collapseWSGo rest true else ' ' :: collapseWSGo rest true)
    else c :: collapseWSGo rest false

/-- Model of `replace(/\s+/g, ' ')`. -/
def collapseWS (l : Str) : Str := collapseWSGo l false

/-- Model of `stripHTML` (epubParser.js lines 192–202): tags to spaces,
then the five entity replacements in source order, whitespace collapse,
trim. -/
def stripHTML (h : Str) : Str :=
  trimStr (collapseWS
    (replaceAllStr (str "&gt;") (str ">")
      (replaceAllStr (str "&lt;") (str "<")
        (replaceAllStr (str "&amp;") (str "&")
          (replaceAllStr (str "&quot;") (str "\"")
            (replaceAllStr (str "&nbsp;") (str " ")
              (stripTags h)))))))

/-- The `[1-6]` digit of a heading tag. -/
def digit16 (c : Char) : Option Nat :=
  if '1' ≤ c && c ≤ '6' then some (c.toNat - 48) else none

/-- Opening-tag match of `/<h([1-6])[^>]*>/i` at the head of the string:
the captured level and the remainder. -/
def hOpenAt (s : Str) : Option (Nat × Str) :=
  match s with
  | '<' :: c :: d :: r =>
    if lowerA c == 'h' then
      match digit16 d with
      | some lv =>
        let (_, r2) := r.span (fun e => !(e == '>'))
        (match r2 with
         | '>' :: r3 => some (lv, r3)
         | _ => none)
      | none => none
    else none
  | _ => none

/-- Closing-tag test of `/<\/h[1-6]>/i` at the head of the string (the
closing digit is allowed to differ from the opening one, as in the
source's regex); such a match always spans 5 characters. -/
def hCloseTest (s : Str) : Bool :=
  match s with
  | '<' :: '/' :: c :: d :: '>' :: _ => lowerA c == 'h' && (digit16 d).isSome
  | _ => false

/-- Lazy `(.*?)` body scan of a heading element: extend the body (over
`.`-matchable characters only) until the closing tag. -/
def hInnerGo : Nat → Str → Str → Option (Str × Str)
  | 0, _, _ => none
  | fuel + 1, accRev, s =>
    if hCloseTest s then some (accRev.reverse, s.drop 5)
    else
      match s with
      | [] => none
      | c :: rest => if dotCh c then hInnerGo fuel (c :: accRev) rest else none

/-- Fuel-driven `matchAll` scan of `/<h([1-6])[^>]*>(.*?)<\/h[1-6]>/gi`. -/
def hMatchesGo : Nat → Str → List (Nat × Str)
  | 0, _ => []
  | _, [] => []
  | fuel + 1, c :: rest =>
    match hOpenAt (c :: rest) with
    | some (lv, afterOpen) =>
      (match hInnerGo (afterOpen.length + 1) [] afterOpen with
       | some (inner, afterClose) => (lv, inner) :: hMatchesGo fuel afterClose
       | none => hMatchesGo fuel rest)
    | none => hMatchesGo fuel rest

/-- All heading matches (level, raw inner markup) in document order. -/
def headingMatches (s : Str) : List (Nat × Str) := hMatchesGo (s.length + 1) s

/-- Opening-tag match of `/<p[^>]*>/i` at the head of the string. -/
def pOpenAt (s : Str) : Option Str :=
  match s with
  | '<' :: c :: r =>
    if lowerA c == 'p' then
      let (_, r2) := r.span (fun e => !(e == '>'))
      (match r2 with
       | '>' :: r3 => some r3
       | _ => none)
    else none
  | _ => none

/-- Closing-tag test of `/<\/p>/i` (spans 4 characters). -/
def pCloseTest (s : Str) : Bool :=
  match s with
  | '<' :: '/' :: c :: '>' :: _ => lowerA c == 'p'
  | _ => false

/-- Lazy `(.*?)` body scan of a paragraph element. -/
def pInnerGo : Nat → Str → Str → Option (Str × Str)
  | 0, _, _ => none
  | fuel + 1, accRev, s =>
    if pCloseTest s then some (accRev.reverse, s.drop 4)
    else
      match s with
      | [] => none
      | c :: rest => if dotCh c then pInnerGo fuel (c :: accRev) rest else none

/-- Fuel-driven `matchAll` scan of `/<p[^>]*>(.*?)<\/p>/gi`. -/
def pMatchesGo : Nat → Str → List Str
  | 0, _ => []
  | _, [] => []
  | fuel + 1, c :: rest =>
    match pOpenAt (c :: rest) with
    | some afterOpen =>
      (match pInnerGo (afterOpen.length + 1) [] afterOpen with
       | some (inner, afterClose) => inner :: pMatchesGo fuel afterClose
       | none => pMatchesGo fuel rest)
    | none => pMatchesGo fuel rest

/-- All paragraph matches (raw inner markup) in document order. -/
def paraMatches (s : Str) : List Str := pMatchesGo (s.length + 1) s

/-- Heading id of the markup extractor
(`` `${chapterId}_heading_${paragraphs.length}` ``). -/
def eHeadId (cid : Str) (k : Nat) : Str := cid ++ str "_heading_" ++ natDigits k

/-- Paragraph id of the markup extractor
(`` `${chapterId}_para_${...}` ``). -/
def eParaId (cid : Str) (k : Nat) : Str := cid ++ str "_para_" ++ natDigits k

/-- Degraded-content rescue path: each non-blank line of the stripped text
becomes its own paragraph, with the (filtered) line index in the id. -/
def fallbackGo (cid : Str) (cIdx : Nat) : Nat → List Str → List Block
  | _, [] => []
  | idx, l :: rest =>
    (if (trimStr l).isEmpty then []
     else [⟨eParaId cid idx, .paragraph, trimStr l, none, some cid, some cIdx⟩]) ++
    fallbackGo cid cIdx (idx + 1) rest

/-- The heading scan of `extractParagraphsFromHTML`: one pushed heading
block per match, numbered by the current array length. -/
def eHeadBlocks (text cid : Str) (cIdx : Nat) : List Block :=
  (headingMatches text).foldl
    (fun acc (m : Nat × Str) =>
      acc ++ [⟨eHeadId cid acc.length, .heading, stripHTML m.2, some m.1,
               some cid, some cIdx⟩]) []

/-- The paragraph scan of `extractParagraphsFromHTML`, pushing onto the
array left by the heading scan; an empty stripped body is discarded. -/
def eAllBlocks (text cid : Str) (cIdx : Nat) : List Block :=
  (paraMatches text).foldl
    (fun acc inner =>
      let paraText := stripHTML inner
      if (trimStr paraText).isEmpty then acc
      else acc ++ [⟨eParaId cid acc.length, .paragraph, trimStr paraText, none,
                    some cid, some cIdx⟩]) (eHeadBlocks text cid cIdx)

/-- Model of `extractParagraphsFromHTML(html, chapterId, chapterIndex)`
(epubParser.js lines 133–187). -/
def extractParagraphsFromHTML (html cid : Str) (cIdx : Nat) : List Block :=
  let text := stripTagBlocks (str "style") (stripTagBlocks (str "script") html)
  if (eAllBlocks text cid cIdx).isEmpty then
    let cleanText := stripHTML text
    fallbackGo cid cIdx 0
      ((splitOnCh '\n' cleanText).filter (fun l => !(trimStr l).isEmpty))
  else eAllBlocks text cid cIdx

/-- Model of the EPUB `extractContent` loop over fragments (chapter id and
markup body per fragment, `chapterIndex` counting successfully processed
fragments). -/
def extractContentGo : Nat → List (Str × Str) → List Block
  | _, [] => []
  | i, (cid, html) :: rest =>
    extractParagraphsFromHTML html cid i ++ extractContentGo (i + 1) rest

/-- Full-document markup extraction: fragments in declared order. -/
def extractContentModel (frags : List (Str × Str)) : List Block :=
  extractContentGo 0 frags


/-! ### Chapter partitioner & exporter (src/parser.js)

`generateBookInfoFiles` filters the TOC through `isValidChapter`, derives
one slug per surviving entry via `chapterNameToFileName` (falling back to
a positional `chapter_<n>` when the slug is empty), synthesizes chapters
from content `chapter` tags or a single default when needed, groups the
content blocks into per-`tocId` buckets (a JS `Map`, modelled by an
insertion-ordered association list with `undefined` as a legal key), and
emits one single-page chapter file per chapter plus `bookinfo.json`.
File-system writes are modelled as the returned `(path, data)` list;
`Date.now()` is an explicit clock (indexed by call number) and the
module-level id counter is threaded through `GenSt`. -/

/-- Substring containment (`String.prototype.includes`). -/
def containsSub (sub : Str) : Str → Bool
  | [] => sub.isEmpty
  | c :: rest => sub.isPrefixOf (c :: rest) || containsSub sub rest

/-- The `excludeKeywords` denylist of `isValidChapter`. -/
def excludeKeywords : List Str :=
  [str "cover", str "title page", str "copyright", str "contents", str "toc",
   str "dedication", str "preview", str "special preview"]

/-- The `excludeIds` denylist of `isValidChapter`. -/
def excludeIds : List Str :=
  [str "cvi", str "cvt", str "tp", str "cop", str "toc", str "ded",
   str "fm1", str "fm2", str "fm3", str "bm1", str "c011"]

/-- Model of `isValidChapter(tocItem)` (src/parser.js lines 454–469). -/
def isValidChapter (t : TocEntry) : Bool :=
  let title := t.title.map lowerA
  let id := (match t.id with | some i => i | none => []).map lowerA
  if excludeIds.contains id then false
  else !(excludeKeywords.any (fun k => containsSub k title))

/-- Model of `replace(/\s+/g, '_')`: every whitespace run becomes one underscore. -/
def wsToUnderscoreGo : Str → Bool → Str
  | [], _ => []
  | c :: rest, inRun =>
    if isWS c then
      (if inRun then wsToUnderscoreGo rest true else '_' :: wsToUnderscoreGo rest true)
    else c :: wsToUnderscoreGo rest false

/-- Model of `replace(/\s+/g, '_')`. -/
def wsToUnderscore (l : Str) : Str := wsToUnderscoreGo l false

/-- Model of `replace(/^chapter\s*(\d+)/i, 'chapter_$1')`: when the string starts
with `chapter`, optional whitespace and at least one digit, the matched
span is rewritten to `chapter_<digits>` (the remainder is kept). -/
def chapterRewrite (s : Str) : Str :=
  if ciLeads (str "chapter") s then
    let r := s.drop 7
    let (_, r2) := r.span isWS
    let (ds, r3) := r2.span isDigitCh
    if ds.isEmpty then s else str "chapter_" ++ ds ++ r3
  else s

/-- Model of `chapterNameToFileName(name)` (src/parser.js lines 474–481):
lower-case, keep `[a-z0-9\s]`, whitespace runs to underscores, the
`chapter N` rewrite, truncate to 50. -/
def chapterNameToFileName (name : Str) : Str :=
  (chapterRewrite
    (wsToUnderscore
      ((name.map lowerA).filter
        (fun c => ('a' ≤ c && c ≤ 'z') || isDigitCh c || isWS c)))).take 50

/-- Export-time chapter record. -/
structure ChapterRec where
  name : Str
  file : Str
  index : Nat
  zh : Str
  tocId : Option Str
deriving DecidableEq, Repr

/-- Chapter candidates from the filtered TOC, in original order
(`validChapters = allTocItems.map(...)`). -/
def chaptersFromToc : Nat → List TocEntry → List ChapterRec
  | _, [] => []
  | i, t :: rest =>
    let fn := chapterNameToFileName t.title
    { name := if t.title.isEmpty then str "Chapter " ++ natDigits (i + 1) else t.title
      file := if fn.isEmpty then str "chapter_" ++ natDigits (i + 1) else fn
      index := i + 1
      zh := []
      tocId := t.id } :: chaptersFromToc (i + 1) rest

/-- Chapter synthesis from content `chapter` tags in first-seen order
(the source's `chapterMap`); the accumulator is the insertion-ordered
key/record list. -/
def chaptersFromContent : List Block → List (Str × ChapterRec) → List (Str × ChapterRec)
  | [], m => m
  | b :: rest, m =>
    match b.chapter with
    | some c =>
      if !c.isEmpty && !(m.any (fun p => p.1 == c)) then
        let size := m.length
        let posIdx := match b.chapterIndex with
                      | some k => if k = 0 then size + 1 else k
                      | none => size + 1
        let nm := if b.text.isEmpty then str "Chapter " ++ natDigits posIdx else b.text
        let fn := chapterNameToFileName nm
        chaptersFromContent rest (m ++
          [(c, { name := nm
                 file := if fn.isEmpty then str "chapter_" ++ natDigits (size + 1) else fn
                 index := size + 1
                 zh := []
                 tocId := some c })])
      else chaptersFromContent rest m
    | none => chaptersFromContent rest m

/-- The single synthesized default chapter. -/
def defaultChapter : ChapterRec :=
  { name := str "Chapter 1", file := str "chapter_1", index := 1, zh := []
    tocId := some (str "default") }

/-- The `validChapters` array after the three fallback stages. -/
def validChaptersOf (toc : List TocEntry) (content : List Block) : List ChapterRec :=
  let vc := chaptersFromToc 0 (toc.filter isValidChapter)
  let vc := if vc.isEmpty then (chaptersFromContent content []).map Prod.snd else vc
  if vc.isEmpty then [defaultChapter] else vc

/-- Model of `Map.has` on the insertion-ordered bucket list (`undefined` keys are
`none`). -/
def alHas (k : Option Str) (m : List (Option Str × List Block)) : Bool :=
  m.any (fun p => p.1 == k)

/-- Model of `Map.set` (overwrite in place or append). -/
def alSet (k : Option Str) (v : List Block)
    (m : List (Option Str × List Block)) : List (Option Str × List Block) :=
  if alHas k m then m.map (fun p => if p.1 == k then (k, v) else p)
  else m ++ [(k, v)]

/-- Model of `Map.get(k).push(b)` on an existing bucket. -/
def alAppend (k : Option Str) (b : Block)
    (m : List (Option Str × List Block)) : List (Option Str × List Block) :=
  m.map (fun p => if p.1 == k then (p.1, p.2 ++ [b]) else p)

/-- Model of `Map.get`. -/
def alGet (k : Option Str) (m : List (Option Str × List Block)) :
    Option (List Block) :=
  (m.find? (fun p => p.1 == k)).map Prod.snd

/-- Bucket initialisation (`contentByChapter.set(chapter.tocId, [])` per
chapter). -/
def initBuckets (chs : List ChapterRec) : List (Option Str × List Block) :=
  chs.foldl (fun m ch => alSet ch.tocId [] m) []

/-- Assignment of one content block (`item.chapter || 'default'`, else the
first chapter's bucket or a synthesized `'default'` bucket). -/
def assignBlock (chs : List ChapterRec) (m : List (Option Str × List Block))
    (b : Block) : List (Option Str × List Block) :=
  let cid : Str := match b.chapter with
                   | some c => if c.isEmpty then str "default" else c
                   | none => str "default"
  if alHas (some cid) m then alAppend (some cid) b m
  else
    let defKey : Option Str :=
      match chs.head? with
      | some ch =>
        (match ch.tocId with
         | some t => if t.isEmpty then some (str "default") else some t
         | none => some (str "default"))
      | none => some (str "default")
    let m := if alHas defKey m then m else alSet defKey [] m
    alAppend defKey b m

/-- The full grouping pass. -/
def groupContent (chs : List ChapterRec) (content : List Block) :
    List (Option Str × List Block) :=
  content.foldl (assignBlock chs) (initBuckets chs)

/-- One page entry (`{en, zh: '', id}`). -/
structure ChapEntry where
  en : Str
  zh : Str
  id : Str
deriving DecidableEq, Repr

/-- A persisted chapter file (`{name, zh: '', pages}`). -/
structure ChapterData where
  name : Str
  zh : Str
  pages : List (List ChapEntry)
deriving DecidableEq, Repr

/-- One `chapters` element of `bookinfo.json`. -/
structure BookChap where
  name : Str
  file : Str
  index : Nat
  zh : Str
deriving DecidableEq, Repr

/-- The persisted `bookinfo.json` payload. -/
structure BookInfoData where
  name : Str
  zh : Str
  summary : Str
  cover : Str
  chapters : List BookChap
  filePath : Str
  bookId : Str
deriving DecidableEq, Repr

/-- Generator state: the clock (`Date.now()` per call number) and the
module-level `idCounter`. -/
structure GenSt where
  clock : Nat → Nat
  callIdx : Nat
  ctr : Nat

/-- One `generateUniqueId()` call inside the exporter. -/
def genRaw (g : GenSt) : Str × GenSt :=
  let ts := g.clock g.callIdx
  let c := (g.ctr + 1) % 10000
  (uniqueIdCore ts c, { g with callIdx := g.callIdx + 1, ctr := c })

/-- Page-entry construction over one chapter's bucket
(`if (item.text && item.text.trim()) push({en: item.text.trim(), zh, id})`). -/
def buildEntries : List Block → GenSt → List ChapEntry × GenSt
  | [], g => ([], g)
  | b :: rest, g =>
    if !b.text.isEmpty && !(trimStr b.text).isEmpty then
      let r1 := genRaw g
      let r2 := buildEntries rest r1.2
      (⟨trimStr b.text, [], r1.1⟩ :: r2.1, r2.2)
    else buildEntries rest g

/-- Per-chapter file construction in chapter order; the path of each write
is `<outputDir>/<chapter.file>.json`. -/
def buildChapterFiles (outDir : Str) (buckets : List (Option Str × List Block)) :
    List ChapterRec → GenSt → List (Str × ChapterData) × GenSt
  | [], g => ([], g)
  | ch :: rest, g =>
    let chContent := (alGet ch.tocId buckets).getD []
    let r1 := buildEntries chContent g
    let pages := if r1.1.isEmpty then [([] : List ChapEntry)] else [r1.1]
    let path := outDir ++ '/' :: (ch.file ++ str ".json")
    let r2 := buildChapterFiles outDir buckets rest r1.2
    ((path, ⟨ch.name, [], pages⟩) :: r2.1, r2.2)

/-- Exporter input: the fields of the document model that
`generateBookInfoFiles` reads (`metadata.title`/`metadata.description`
with `[]` for any falsy value, the TOC and the content array). -/
structure ExportDoc where
  title : Str
  description : Str
  toc : List TocEntry
  content : List Block
deriving Repr

/-- Exporter output: the manifest payload and path, the chapter writes in
order (path and data), the written chapter paths, and the book id. -/
structure ExportResult where
  bookInfoPath : Str
  bookInfo : BookInfoData
  chapterWrites : List (Str × ChapterData)
  chapterFiles : List Str
  bookId : Str
deriving Repr

/-- Model of `generateBookInfoFiles(document, outputDir, filePath)`
(src/parser.js lines 490–634); `bookId` is the fresh random identifier
(an input of the model) and `g` the id-generator state. -/
def generateBookInfoFiles (doc : ExportDoc) (outDir filePath bookId : Str)
    (g : GenSt) : ExportResult × GenSt :=
  let chs := validChaptersOf doc.toc doc.content
  let bookInfo : BookInfoData :=
    { name := if doc.title.isEmpty then str "Untitled" else doc.title
      zh := []
      summary := doc.description
      cover := []
      chapters := chs.map (fun ch => ⟨ch.name, ch.file, ch.index, ch.zh⟩)
      filePath := filePath
      bookId := bookId }
  let buckets := groupContent chs doc.content
  let fr := buildChapterFiles outDir buckets chs g
  ({ bookInfoPath := outDir ++ '/' :: str "bookinfo.json"
     bookInfo := bookInfo
     chapterWrites := fr.1
     chapterFiles := fr.1.map Prod.fst
     bookId := bookId }, fr.2)


/-! ### Helper lemmas: decimal rendering -/

/-- The fuel of `natDigitsF` is irrelevant once it exceeds the argument. -/
theorem natDigitsF_fuel {f1 f2 n : Nat} (h1 : n < f1) (h2 : n < f2) :
    natDigitsF f1 n = natDigitsF f2 n := by
  induction f1 generalizing f2 n with
  | zero => omega
  | succ k ih =>
    match f2, h2 with
    | m + 1, _ =>
      show natDigitsF (k + 1) n = natDigitsF (m + 1) n
      simp only [natDigitsF]
      by_cases h10 : n < 10
      · simp [h10]
      · simp only [if_neg h10]
        have hd : n / 10 < n := Nat.div_lt_self (by omega) (by omega)
        rw [@ih m (n / 10) (by omega) (by omega)]

/-- Recurrence of `natDigits`. -/
theorem natDigits_eq (n : Nat) :
    natDigits n =
      if n < 10 then [Nat.digitChar n]
      else natDigits (n / 10) ++ [Nat.digitChar (n % 10)] := by
  show natDigitsF (n + 1) n = _
  simp only [natDigitsF]
  by_cases h10 : n < 10
  · simp [h10]
  · simp only [if_neg h10]
    have hd : n / 10 < n := Nat.div_lt_self (by omega) (by omega)
    rw [natDigitsF_fuel (by omega) (Nat.lt_succ_self _)]
    rfl

/-- Model of `Nat.digitChar` of a value below 10 is a decimal digit character. -/
theorem digitChar_isDigitCh {m : Nat} (h : m < 10) :
    isDigitCh (Nat.digitChar m) = true := by
  interval_cases m <;> decide

/-- Model of `Nat.digitChar` is inverted by the `- 48` decoding below 10. -/
theorem digitChar_val {m : Nat} (h : m < 10) : (Nat.digitChar m).toNat - 48 = m := by
  interval_cases m <;> decide

/-- Every character of `natDigits n` is a decimal digit. -/
theorem natDigits_digits {n : Nat} : ∀ c ∈ natDigits n, isDigitCh c = true := by
  induction n using Nat.strong_induction_on with
  | _ n ih =>
    rw [natDigits_eq]
    by_cases h10 : n < 10
    · simp only [if_pos h10, List.mem_singleton]
      rintro c rfl
      exact digitChar_isDigitCh h10
    · simp only [if_neg h10, List.mem_append, List.mem_singleton]
      rintro c (hc | rfl)
      · exact ih (n / 10) (Nat.div_lt_self (by omega) (by omega)) c hc
      · exact digitChar_isDigitCh (Nat.mod_lt _ (by omega))

/-- A digit character is not an underscore (nor a letter). -/
theorem isDigitCh_ne {c : Char} (h : isDigitCh c = true) : c ≠ '_' := by
  rintro rfl
  simp [isDigitCh] at h

/-- Model of `digitsVal` inverts `natDigits`. -/
theorem digitsVal_natDigits (n : Nat) : digitsVal (natDigits n) = n := by
  induction n using Nat.strong_induction_on with
  | _ n ih =>
    rw [natDigits_eq]
    by_cases h10 : n < 10
    · simp only [if_pos h10, digitsVal, List.foldl_cons, List.foldl_nil]
      rw [Nat.zero_mul, Nat.zero_add, digitChar_val h10]
    · simp only [if_neg h10, digitsVal, List.foldl_append, List.foldl_cons,
        List.foldl_nil]
      have := ih (n / 10) (Nat.div_lt_self (by omega) (by omega))
      simp only [digitsVal] at this
      rw [this, digitChar_val (Nat.mod_lt _ (by omega))]
      omega

/-- Model of `natDigits` is injective. -/
theorem natDigits_inj {a b : Nat} (h : natDigits a = natDigits b) : a = b := by
  have := congrArg digitsVal h
  rwa [digitsVal_natDigits, digitsVal_natDigits] at this

/-- Model of `natDigits` is never empty. -/
theorem natDigits_ne_nil (n : Nat) : natDigits n ≠ [] := by
  rw [natDigits_eq]
  by_cases h10 : n < 10 <;> simp [h10]

/-- Digit-count upper bound: below `10^k` (for positive `k`) at most `k`
digits. -/
theorem natDigits_len_le {n k : Nat} (h : n < 10 ^ k) (hk1 : 1 ≤ k) :
    (natDigits n).length ≤ k := by
  induction n using Nat.strong_induction_on generalizing k with
  | _ n ih =>
    rw [natDigits_eq]
    by_cases h10 : n < 10
    · simp only [if_pos h10, List.length_singleton]
      exact hk1
    · simp only [if_neg h10, List.length_append, List.length_singleton]
      have hk : 2 ≤ k := by
        by_contra hk
        interval_cases k <;> omega
      have hpow : 10 ^ k = 10 ^ (k - 1) * 10 := by
        rw [← Nat.pow_succ]
        congr 1
        omega
      have hdiv : n / 10 < 10 ^ (k - 1) :=
        (Nat.div_lt_iff_lt_mul (by omega)).2 (by rw [hpow] at h; omega)
      have := ih (n / 10) (Nat.div_lt_self (by omega) (by omega)) hdiv (by omega)
      omega

/-- Digit-count lower bound: at least `k + 1` digits from `10^k` up. -/
theorem natDigits_len_ge {n k : Nat} (h : 10 ^ k ≤ n) :
    k + 1 ≤ (natDigits n).length := by
  induction k generalizing n with
  | zero =>
    have := natDigits_ne_nil n
    cases hn : natDigits n with
    | nil => exact absurd hn this
    | cons a l => simp
  | succ k ih =>
    rw [natDigits_eq]
    have h10 : ¬ n < 10 := by
      have : 10 ^ 1 ≤ 10 ^ (k + 1) := Nat.pow_le_pow_right (by omega) (by omega)
      simp only [pow_one] at this
      omega
    simp only [if_neg h10, List.length_append, List.length_singleton]
    have : 10 ^ k ≤ n / 10 := by
      rw [Nat.le_div_iff_mul_le (by omega)]
      calc 10 ^ k * 10 = 10 ^ (k + 1) := by rw [Nat.pow_succ]
        _ ≤ n := h
    have := ih this
    omega

/-! ### Helper lemmas: id decomposition

The block ids built by the extractors all have the shape
`head ++ '_' :: digits` where the digit part contains no underscore;
splitting at the last underscore is therefore unambiguous. -/

/-- Model of `takeWhile`/`dropWhile` of a list whose prefix satisfies the predicate
and whose next character refutes it. -/
theorem takeWhile_split {p : Char → Bool} {d : Str} {c : Char} {r : Str}
    (hd : ∀ x ∈ d, p x = true) (hc : p c = false) :
    (d ++ c :: r).takeWhile p = d ∧ (d ++ c :: r).dropWhile p = c :: r := by
  induction d with
  | nil => simp [List.takeWhile, List.dropWhile, hc]
  | cons x d ih =>
    have hx : p x = true := hd x (by simp)
    have ih' := ih (fun y hy => hd y (by simp [hy]))
    refine ⟨?_, ?_⟩
    · simp only [List.cons_append, List.takeWhile_cons, hx, if_true]
      rw [ih'.1]
    · simp only [List.cons_append, List.dropWhile_cons, hx, if_true]
      exact ih'.2

/-- Unique decomposition at the last underscore: two equal strings of the
shape `head ++ '_' :: tail` with underscore-free tails have equal heads
and tails. -/
theorem usSplit {a1 a2 d1 d2 : Str}
    (h1 : ∀ c ∈ d1, c ≠ '_') (h2 : ∀ c ∈ d2, c ≠ '_')
    (he : a1 ++ '_' :: d1 = a2 ++ '_' :: d2) : a1 = a2 ∧ d1 = d2 := by
  have hrev : d1.reverse ++ '_' :: a1.reverse = d2.reverse ++ '_' :: a2.reverse := by
    have := congrArg List.reverse he
    simpa [List.reverse_append] using this
  have hp1 : ∀ x ∈ d1.reverse, (x != '_') = true := by
    intro x hx
    simpa using h1 x (List.mem_reverse.1 hx)
  have hp2 : ∀ x ∈ d2.reverse, (x != '_') = true := by
    intro x hx
    simpa using h2 x (List.mem_reverse.1 hx)
  have hc : ('_' != '_') = false := by decide
  have t1 := @takeWhile_split (fun x => x != '_') d1.reverse '_' a1.reverse hp1 hc
  have t2 := @takeWhile_split (fun x => x != '_') d2.reverse '_' a2.reverse hp2 hc
  have htake : d1.reverse = d2.reverse := by rw [← t1.1, ← t2.1, hrev]
  have hdrop : ('_' :: a1.reverse : Str) = '_' :: a2.reverse := by
    rw [← t1.2, ← t2.2, hrev]
  refine ⟨?_, List.reverse_injective htake⟩
  have : a1.reverse = a2.reverse := by
    injection hdrop
  exact List.reverse_injective this

/-- The underscore-free digit side of every id. -/
theorem natDigits_no_us {n : Nat} : ∀ c ∈ natDigits n, c ≠ '_' :=
  fun c hc => isDigitCh_ne (natDigits_digits c hc)

/-- Model of `mkParaId` and `mkHeadId` in last-underscore shape. -/
theorem mkParaId_shape (k : Nat) : mkParaId k = str "para" ++ '_' :: natDigits k := rfl

/-- Model of `mkHeadId` in last-underscore shape. -/
theorem mkHeadId_shape (k : Nat) : mkHeadId k = str "heading" ++ '_' :: natDigits k := rfl

/-- Injectivity and disjointness of the TXT/PDF id constructors. -/
theorem mkId_inj {k1 k2 : Nat} :
    (mkParaId k1 = mkParaId k2 → k1 = k2) ∧
    (mkHeadId k1 = mkHeadId k2 → k1 = k2) ∧
    (mkParaId k1 ≠ mkHeadId k2) := by
  refine ⟨?_, ?_, ?_⟩
  · intro h
    rw [mkParaId_shape, mkParaId_shape] at h
    exact natDigits_inj (usSplit natDigits_no_us natDigits_no_us h).2
  · intro h
    rw [mkHeadId_shape, mkHeadId_shape] at h
    exact natDigits_inj (usSplit natDigits_no_us natDigits_no_us h).2
  · intro h
    rw [mkParaId_shape, mkHeadId_shape] at h
    have := (usSplit natDigits_no_us natDigits_no_us h).1
    exact absurd this (by decide)

/-- Model of `eParaId` in last-underscore shape. -/
theorem eParaId_shape (cid : Str) (k : Nat) :
    eParaId cid k = (cid ++ str "_para") ++ '_' :: natDigits k := by
  show (cid ++ str "_para_") ++ natDigits k = _
  rw [show str "_para_" = str "_para" ++ ['_'] from by decide, ← List.append_assoc,
    List.append_assoc (cid ++ str "_para") ['_'] (natDigits k)]
  rfl

/-- Model of `eHeadId` in last-underscore shape. -/
theorem eHeadId_shape (cid : Str) (k : Nat) :
    eHeadId cid k = (cid ++ str "_heading") ++ '_' :: natDigits k := by
  show (cid ++ str "_heading_") ++ natDigits k = _
  rw [show str "_heading_" = str "_heading" ++ ['_'] from by decide, ← List.append_assoc,
    List.append_assoc (cid ++ str "_heading") ['_'] (natDigits k)]
  rfl

/-- Two equal markup-extractor paragraph ids share the chapter id and the
index. -/
theorem eParaId_inj {c1 c2 : Str} {k1 k2 : Nat}
    (h : eParaId c1 k1 = eParaId c2 k2) : c1 = c2 ∧ k1 = k2 := by
  rw [eParaId_shape, eParaId_shape] at h
  have := usSplit natDigits_no_us natDigits_no_us h
  exact ⟨List.append_cancel_right this.1, natDigits_inj this.2⟩

/-- Two equal markup-extractor heading ids share the chapter id and the
index. -/
theorem eHeadId_inj {c1 c2 : Str} {k1 k2 : Nat}
    (h : eHeadId c1 k1 = eHeadId c2 k2) : c1 = c2 ∧ k1 = k2 := by
  rw [eHeadId_shape, eHeadId_shape] at h
  have := usSplit natDigits_no_us natDigits_no_us h
  exact ⟨List.append_cancel_right this.1, natDigits_inj this.2⟩

/-- A markup-extractor paragraph id never equals a heading id. -/
theorem eParaId_ne_eHeadId {c1 c2 : Str} {k1 k2 : Nat} :
    eParaId c1 k1 ≠ eHeadId c2 k2 := by
  intro h
  rw [eParaId_shape, eHeadId_shape] at h
  have hheads := (usSplit natDigits_no_us natDigits_no_us h).1
  have hrev := congrArg List.reverse hheads
  rw [List.reverse_append, List.reverse_append] at hrev
  rw [show (str "_para").reverse = 'a' :: str "rap_" from by decide,
    show (str "_heading").reverse = 'g' :: str "nidaeh_" from by decide] at hrev
  simp only [List.cons_append] at hrev
  injection hrev with h1 _
  exact absurd h1 (by decide)

/-! ### Helper lemmas: trimming -/

/-- The head surviving a `dropWhile` refutes the predicate. -/
theorem dropWhile_head_false {p : Char → Bool} {l r : Str} {c : Char}
    (h : l.dropWhile p = c :: r) : p c = false := by
  induction l with
  | nil => simp at h
  | cons x xs ih =>
    rw [List.dropWhile_cons] at h
    by_cases hx : p x = true
    · rw [if_pos hx] at h
      exact ih h
    · rw [if_neg hx] at h
      cases h
      simpa using hx

/-- A nonempty `dropWhile` keeps the last element. -/
theorem dropWhile_getLast? {p : Char → Bool} {l : Str}
    (h : l.dropWhile p ≠ []) : (l.dropWhile p).getLast? = l.getLast? := by
  induction l with
  | nil => simp at h
  | cons x xs ih =>
    rw [List.dropWhile_cons]
    by_cases hx : p x = true
    · rw [List.dropWhile_cons, if_pos hx] at h
      rw [if_pos hx, ih h]
      have hxs : xs ≠ [] := by
        intro hnil
        rw [hnil] at h
        simp at h
      match xs, hxs with
      | y :: ys, _ => rw [List.getLast?_cons_cons]
    · rw [if_neg hx]

/-- A `dropWhile` whose head already refutes the predicate is the
identity. -/
theorem dropWhile_of_head_false {p : Char → Bool} {l : Str}
    (h : ∀ c r, l = c :: r → p c = false) : l.dropWhile p = l := by
  cases l with
  | nil => rfl
  | cons c r => rw [List.dropWhile_cons, if_neg (by simp [h c r rfl])]

/-- The head of a nonempty trimmed string is not whitespace. -/
theorem trimStr_head {s : Str} {c : Char} {r : Str} (h : trimStr s = c :: r) :
    isWS c = false := by
  unfold trimStr at h
  set A := s.dropWhile isWS with hA
  have hne : A.reverse.dropWhile isWS ≠ [] := by
    intro hnil
    rw [hnil] at h
    simp at h
  have hlast := dropWhile_getLast? hne
  have hhead : (A.reverse.dropWhile isWS).reverse.head? = some c := by
    rw [h]
    rfl
  rw [List.head?_reverse, hlast, List.getLast?_reverse] at hhead
  cases hAcase : A with
  | nil =>
    rw [hAcase] at hhead
    simp at hhead
  | cons a as =>
    rw [hAcase] at hhead
    simp only [List.head?_cons, Option.some_inj] at hhead
    subst hhead
    exact dropWhile_head_false hAcase

/-- The last character of a nonempty trimmed string is not whitespace. -/
theorem trimStr_getLast {s : Str} {c : Char} (h : (trimStr s).getLast? = some c) :
    isWS c = false := by
  unfold trimStr at h
  rw [List.getLast?_reverse] at h
  cases hcase : (s.dropWhile isWS).reverse.dropWhile isWS with
  | nil =>
    rw [hcase] at h
    simp at h
  | cons a as =>
    rw [hcase] at h
    simp only [List.head?_cons, Option.some_inj] at h
    subst h
    exact dropWhile_head_false hcase

/-- Trimming is idempotent. -/
theorem trimStr_idem (s : Str) : trimStr (trimStr s) = trimStr s := by
  have h1 : (trimStr s).dropWhile isWS = trimStr s := by
    apply dropWhile_of_head_false
    intro c r hcr
    exact trimStr_head hcr
  show (((trimStr s).dropWhile isWS).reverse.dropWhile isWS).reverse = _
  rw [h1]
  have h2 : (trimStr s).reverse.dropWhile isWS = (trimStr s).reverse := by
    apply dropWhile_of_head_false
    intro c r hcr
    have : (trimStr s).getLast? = some c := by
      rw [← List.head?_reverse, hcr]
      rfl
    exact trimStr_getLast this
  rw [h2, List.reverse_reverse]

/-- An empty trim means the string is all whitespace. -/
theorem trimStr_nil {s : Str} (h : trimStr s = []) : ∀ c ∈ s, isWS c = true := by
  unfold trimStr at h
  rw [List.reverse_eq_nil_iff, List.dropWhile_eq_nil_iff] at h
  intro c hc
  have hsplit := List.takeWhile_append_dropWhile isWS s
  rw [← hsplit] at hc
  rcases List.mem_append.1 hc with h1 | h2
  · exact List.mem_takeWhile_imp h1
  · exact h c (List.mem_reverse.2 h2)

/-! ### Invariants of the TXT and PDF block streams -/

/-- Loop invariant of the TXT extractor: ids are distinct and bounded by
the shared counter, and every block's text trims nonempty. -/
def TInv (st : TxtSt) : Prop :=
  (st.paras.map Block.id).Nodup ∧
  (∀ b ∈ st.paras, ∃ k, k < st.ctr ∧ (b.id = mkParaId k ∨ b.id = mkHeadId k)) ∧
  (∀ b ∈ st.paras, trimStr b.text ≠ [])

/-- A counter-stamped id is fresh for every block with a smaller stamp. -/
theorem freshId {bid xid : Str} {n k : Nat} (hk : k < n)
    (hb : bid = mkParaId n ∨ bid = mkHeadId n)
    (hx : xid = mkParaId k ∨ xid = mkHeadId k) : bid ≠ xid := by
  intro he
  rcases hb with hb | hb <;> rcases hx with hx | hx <;> rw [hb, hx] at he
  · exact absurd ((@mkId_inj n k).1 he) (by omega)
  · exact absurd he (@mkId_inj n k).2.2
  · exact absurd he.symm (@mkId_inj k n).2.2
  · exact absurd ((@mkId_inj n k).2.1 he) (by omega)

/-- Appending a block stamped with the current counter preserves the
invariant data. -/
theorem inv_push {paras : List Block} {ctr : Nat} {b : Block}
    (hnd : (paras.map Block.id).Nodup)
    (hsh : ∀ x ∈ paras, ∃ k, k < ctr ∧ (x.id = mkParaId k ∨ x.id = mkHeadId k))
    (hb : b.id = mkParaId ctr ∨ b.id = mkHeadId ctr) :
    ((paras ++ [b]).map Block.id).Nodup ∧
    (∀ x ∈ paras ++ [b], ∃ k, k < ctr + 1 ∧
      (x.id = mkParaId k ∨ x.id = mkHeadId k)) := by
  constructor
  · rw [List.map_append, List.nodup_append]
    refine ⟨hnd, by simp, ?_⟩
    intro xid hxid
    simp only [List.map_cons, List.map_nil, List.mem_singleton, List.mem_map] at hxid ⊢
    rcases hxid with ⟨x, hx, rfl⟩
    obtain ⟨k, hk, hxk⟩ := hsh x hx
    intro he
    exact freshId hk hb hxk he.symm
  · intro x hx
    rcases List.mem_append.1 hx with hx | hx
    · obtain ⟨k, hk, hxk⟩ := hsh x hx
      exact ⟨k, by omega, hxk⟩
    · rw [List.mem_singleton] at hx
      subst hx
      exact ⟨ctr, by omega, hb⟩

/-- Model of `txtFlushPara` preserves the invariant. -/
theorem txtFlushPara_inv {st : TxtSt} (h : TInv st) : TInv (txtFlushPara st) := by
  obtain ⟨hnd, hsh, htx⟩ := h
  unfold txtFlushPara
  by_cases hc : (trimStr st.cur).isEmpty
  · rw [if_pos hc]
    exact ⟨hnd, hsh, htx⟩
  · rw [if_neg hc]
    have hp := inv_push hnd hsh
      (b := ⟨mkParaId st.ctr, .paragraph, trimStr st.cur, none, none, none⟩)
      (Or.inl rfl)
    refine ⟨hp.1, hp.2, ?_⟩
    intro b hb
    rcases List.mem_append.1 hb with hb | hb
    · exact htx b hb
    · rw [List.mem_singleton] at hb
      subst hb
      show trimStr (trimStr st.cur) ≠ []
      rw [trimStr_idem]
      simpa using hc

/-- Model of `txtBody` preserves the invariant on trimmed input lines. -/
theorem txtBody_inv {st : TxtSt} {line : Str} {next : Option Str}
    (h : TInv st) (hline : trimStr line = line) : TInv (txtBody st line next) := by
  unfold txtBody
  by_cases he : line.isEmpty
  · rw [if_pos he]
    exact txtFlushPara_inv h
  · rw [if_neg he]
    by_cases hh : isLikelyHeading line next = true
    · rw [if_pos hh]
      obtain ⟨hnd, hsh, htx⟩ := txtFlushPara_inv h
      have hp := inv_push hnd hsh
        (b := ⟨mkHeadId (txtFlushPara st).ctr, .heading, line,
               some (estimateHeadingLevelTxt line), none, none⟩)
        (Or.inr rfl)
      refine ⟨hp.1, hp.2, ?_⟩
      intro b hb
      rcases List.mem_append.1 hb with hb | hb
      · exact htx b hb
      · rw [List.mem_singleton] at hb
        subst hb
        show trimStr line ≠ []
        rw [hline]
        simpa using he
    · rw [if_neg hh]
      exact h

/-- Model of `txtStep` preserves the invariant on trimmed input lines. -/
theorem txtStep_inv {st : TxtSt} {line : Str} {next : Option Str}
    (h : TInv st) (hline : trimStr line = line) : TInv (txtStep st line next) := by
  unfold txtStep
  by_cases hm : tocMarker line = true
  · rw [if_pos hm]
    exact h
  · rw [if_neg hm]
    by_cases hin : st.inTOC = true
    · rw [if_pos hin]
      cases htm : tocItemMatch line with
      | some t => exact ⟨h.1, h.2.1, h.2.2⟩
      | none =>
        by_cases hcond : (line.isEmpty || decide (50 < line.length)) = true
        · rw [if_pos hcond]
          exact txtBody_inv h hline
        · rw [if_neg hcond]
          exact txtBody_inv h hline
    · rw [if_neg hin]
      exact txtBody_inv h hline

/-- The whole TXT loop preserves the invariant. -/
theorem txtLoop_inv : ∀ (lines : List Str) (st : TxtSt),
    TInv st → TInv (txtLoop st lines)
  | [], _, h => h
  | _ :: rest, st, h =>
    txtLoop_inv rest _ (txtStep_inv h (trimStr_idem _))

/-- Invariant of the final TXT block list. -/
theorem extractStructureFromText_inv (text : Str) :
    (((extractStructureFromText text).1.map Block.id).Nodup) ∧
    (∀ b ∈ (extractStructureFromText text).1, trimStr b.text ≠ []) := by
  have h0 : TInv ⟨[], [], [], 0, false⟩ := by
    refine ⟨by simp, ?_, ?_⟩ <;> intro b hb <;> simp at hb
  have h1 := txtFlushPara_inv (txtLoop_inv (splitOnCh '\n' text) _ h0)
  exact ⟨h1.1, h1.2.2⟩

/-- Loop invariant of the PDF extractor: distinct counter-stamped ids. -/
def PInv (st : PdfSt) : Prop :=
  (st.paras.map Block.id).Nodup ∧
  (∀ b ∈ st.paras, ∃ k, k < st.ctr ∧ (b.id = mkParaId k ∨ b.id = mkHeadId k))

/-- Model of `pdfFlush` preserves the invariant. -/
theorem pdfFlush_inv {st : PdfSt} (h : PInv st) : PInv (pdfFlush st) := by
  unfold pdfFlush
  by_cases hc : st.cur.isEmpty
  · rw [if_pos hc]
    exact h
  · rw [if_neg hc]
    exact inv_push h.1 h.2
      (b := ⟨mkParaId st.ctr, .paragraph, st.cur, none, none, none⟩) (Or.inl rfl)

/-- Model of `pdfStep` preserves the invariant. -/
theorem pdfStep_inv {st : PdfSt} {l : Str} {n : Option Str} (h : PInv st) :
    PInv (pdfStep st l n) := by
  unfold pdfStep
  by_cases he : (trimStr l).isEmpty
  · rw [if_pos he]
    exact h
  · rw [if_neg he]
    by_cases hh : isHeadingPdf (trimStr l)
        (match n with | some r => trimStr r | none => []) = true
    · rw [if_pos hh]
      have hf := pdfFlush_inv h
      exact inv_push hf.1 hf.2
        (b := ⟨mkHeadId (pdfFlush st).ctr, .heading, trimStr l,
               some (estimateHeadingLevelPdf (trimStr l)), none, none⟩) (Or.inr rfl)
    · rw [if_neg hh]
      exact h

/-- The whole PDF loop preserves the invariant. -/
theorem pdfLoop_inv : ∀ (lines : List Str) (st : PdfSt),
    PInv st → PInv (pdfLoop st lines)
  | [], _, h => h
  | _ :: rest, st, h => pdfLoop_inv rest _ (pdfStep_inv h)

/-- The PDF block list has pairwise distinct ids. -/
theorem extractParagraphsPdf_nodup (text : Str) :
    ((extractParagraphsPdf text).map Block.id).Nodup := by
  have h0 : PInv ⟨[], [], 0⟩ := ⟨by simp, by intro b hb; simp at hb⟩
  exact (pdfFlush_inv (pdfLoop_inv (splitLinesRN text) _ h0)).1

/-! ### Invariants of the markup extractor -/

/-- Invariant of the markup-extractor push array: distinct ids, each
stamped below the array length with the fragment's chapter id. -/
def einv (cid : Str) (acc : List Block) : Prop :=
  ((acc.map Block.id).Nodup) ∧
  (∀ b ∈ acc, ∃ k, k < acc.length ∧ (b.id = eParaId cid k ∨ b.id = eHeadId cid k))

/-- Freshness of a length-stamped markup id. -/
theorem eFreshId {c : Str} {bid xid : Str} {n k : Nat} (hk : k < n)
    (hb : bid = eParaId c n ∨ bid = eHeadId c n)
    (hx : xid = eParaId c k ∨ xid = eHeadId c k) : bid ≠ xid := by
  intro he
  rcases hb with hb | hb <;> rcases hx with hx | hx <;> rw [hb, hx] at he
  · exact absurd (eParaId_inj he).2 (by omega)
  · exact absurd he eParaId_ne_eHeadId
  · exact absurd he.symm eParaId_ne_eHeadId
  · exact absurd (eHeadId_inj he).2 (by omega)

/-- A fold that either keeps the array or appends one freshly stamped
block preserves `einv`. -/
theorem foldl_push_inv {α : Type} {cid : Str} {f : List Block → α → List Block}
    (hf : ∀ acc x, f acc x = acc ∨ ∃ b, f acc x = acc ++ [b] ∧
      (b.id = eParaId cid acc.length ∨ b.id = eHeadId cid acc.length)) :
    ∀ (l : List α) (acc), einv cid acc → einv cid (l.foldl f acc)
  | [], _, h => h
  | x :: rest, acc, h => by
    rw [List.foldl_cons]
    apply foldl_push_inv hf rest
    rcases hf acc x with hkeep | ⟨b, hpush, hb⟩
    · rw [hkeep]
      exact h
    · rw [hpush]
      obtain ⟨hnd, hsh⟩ := h
      constructor
      · rw [List.map_append, List.nodup_append]
        refine ⟨hnd, by simp, ?_⟩
        intro xid hxid
        simp only [List.map_cons, List.map_nil, List.mem_singleton, List.mem_map] at hxid ⊢
        rcases hxid with ⟨x', hx', rfl⟩
        obtain ⟨k, hk, hxk⟩ := hsh x' hx'
        intro he
        exact eFreshId hk hb hxk he.symm
      · intro x' hx'
        rcases List.mem_append.1 hx' with hx' | hx'
        · obtain ⟨k, hk, hxk⟩ := hsh x' hx'
          exact ⟨k, by simp; omega, hxk⟩
        · rw [List.mem_singleton] at hx'
          subst hx'
          exact ⟨acc.length, by simp, hb⟩

/-- A fold that appends a suffix with property `P` at every step produces
the initial array followed by a `P`-suffix. -/
theorem foldl_delta {α : Type} {P : Block → Prop} {f : List Block → α → List Block}
    (hf : ∀ acc x, ∃ d, f acc x = acc ++ d ∧ ∀ b ∈ d, P b) :
    ∀ (l : List α) (acc), ∃ delta, l.foldl f acc = acc ++ delta ∧ ∀ b ∈ delta, P b
  | [], acc => ⟨[], by simp⟩
  | x :: rest, acc => by
    rw [List.foldl_cons]
    obtain ⟨d1, hd1, hp1⟩ := hf acc x
    obtain ⟨d2, hd2, hp2⟩ := foldl_delta hf rest (f acc x)
    refine ⟨d1 ++ d2, ?_, ?_⟩
    · rw [hd2, hd1, List.append_assoc]
    · intro b hb
      rcases List.mem_append.1 hb with hb | hb
      · exact hp1 b hb
      · exact hp2 b hb

/-- Shape, id-distinctness, and paragraph-text facts of the fallback
path. -/
theorem fallbackGo_facts (cid : Str) (cIdx : Nat) :
    ∀ (ls : List Str) (idx : Nat),
      ((fallbackGo cid cIdx idx ls).map Block.id).Nodup ∧
      (∀ b ∈ fallbackGo cid cIdx idx ls,
        (∃ k, idx ≤ k ∧ b.id = eParaId cid k) ∧ b.btype = .paragraph ∧
          trimStr b.text ≠ [])
  | [], _ => ⟨by simp [fallbackGo], by intro b hb; simp [fallbackGo] at hb⟩
  | l :: rest, idx => by
    obtain ⟨ihnd, ihsh⟩ := fallbackGo_facts cid cIdx rest (idx + 1)
    unfold fallbackGo
    by_cases hl : (trimStr l).isEmpty
    · rw [if_pos hl]
      refine ⟨by simpa using ihnd, ?_⟩
      intro b hb
      rw [List.nil_append] at hb
      obtain ⟨⟨k, hk, hid⟩, hty, htx⟩ := ihsh b hb
      exact ⟨⟨k, by omega, hid⟩, hty, htx⟩
    · rw [if_neg hl]
      constructor
      · rw [List.map_append, List.nodup_append]
        refine ⟨by simp, ihnd, ?_⟩
        intro xid hxid
        simp only [List.map_cons, List.map_nil, List.mem_singleton] at hxid
        subst hxid
        intro hmem
        simp only [List.mem_map] at hmem
        obtain ⟨b, hb, hbid⟩ := hmem
        obtain ⟨⟨k, hk, hid⟩, _, _⟩ := ihsh b hb
        rw [hid] at hbid
        have := (eParaId_inj hbid).2
        omega
      · intro b hb
        rcases List.mem_append.1 hb with hb | hb
        · rw [List.mem_singleton] at hb
          subst hb
          refine ⟨⟨idx, by omega, rfl⟩, rfl, ?_⟩
          show trimStr (trimStr l) ≠ []
          rw [trimStr_idem]
          simpa using hl
        · obtain ⟨⟨k, hk, hid⟩, hty, htx⟩ := ihsh b hb
          exact ⟨⟨k, by omega, hid⟩, hty, htx⟩

/-- The main-path array of the markup extractor satisfies `einv`. -/
theorem withParas_inv (text cid : Str) (cIdx : Nat) :
    einv cid (eAllBlocks text cid cIdx) := by
  unfold eAllBlocks eHeadBlocks
  apply foldl_push_inv
  · intro acc inner
    by_cases hp : (trimStr (stripHTML inner)).isEmpty = true
    · left
      dsimp only
      rw [if_pos hp]
    · right
      refine ⟨⟨eParaId cid acc.length, .paragraph, trimStr (stripHTML inner), none,
        some cid, some cIdx⟩, ?_, Or.inl rfl⟩
      dsimp only
      rw [if_neg hp]
  · apply foldl_push_inv
    · intro acc m
      exact Or.inr ⟨_, rfl, Or.inr rfl⟩
    · exact ⟨by simp, by intro b hb; simp at hb⟩

set_option maxHeartbeats 1600000 in
/-- Structure of the main extraction path: the heading blocks (in match
order) followed by the surviving paragraph blocks, with their typing and
text facts. -/
theorem mainPath_split (text cid : Str) (cIdx : Nat) :
    ∃ hs ps : List Block,
      eAllBlocks text cid cIdx = hs ++ ps ∧
      (∀ b ∈ hs, b.btype = .heading) ∧
      (∀ b ∈ ps, b.btype = .paragraph ∧ trimStr b.text ≠ []) := by
  unfold eAllBlocks eHeadBlocks
  have hheads := foldl_delta
    (P := fun b => b.btype = .heading)
    (f := fun acc (m : Nat × Str) =>
      acc ++ [⟨eHeadId cid acc.length, .heading, stripHTML m.2, some m.1,
               some cid, some cIdx⟩])
    (by
      intro acc m
      exact ⟨_, rfl, by intro b hb; rw [List.mem_singleton] at hb; subst hb; rfl⟩)
    (headingMatches text) []
  obtain ⟨dH, hdH, hpH⟩ := hheads
  have hparas := foldl_delta
    (P := fun b => b.btype = .paragraph ∧ trimStr b.text ≠ [])
    (f := fun acc inner =>
      let paraText := stripHTML inner
      if (trimStr paraText).isEmpty then acc
      else acc ++ [⟨eParaId cid acc.length, .paragraph, trimStr paraText, none,
                    some cid, some cIdx⟩])
    (by
      intro acc inner
      by_cases hp : (trimStr (stripHTML inner)).isEmpty = true
      · refine ⟨[], ?_, by intro b hb; simp at hb⟩
        dsimp only
        rw [if_pos hp, List.append_nil]
      · refine ⟨[⟨eParaId cid acc.length, .paragraph, trimStr (stripHTML inner), none,
          some cid, some cIdx⟩], ?_, ?_⟩
        · dsimp only
          rw [if_neg hp]
        · intro b hb
          rw [List.mem_singleton] at hb
          subst hb
          refine ⟨rfl, ?_⟩
          show trimStr (trimStr (stripHTML inner)) ≠ []
          rw [trimStr_idem]
          simpa using hp)
    (paraMatches text)
    ((headingMatches text).foldl
      (fun acc m =>
        acc ++ [⟨eHeadId cid acc.length, .heading, stripHTML m.2, some m.1,
                 some cid, some cIdx⟩]) [])
  obtain ⟨dP, hdP, hpP⟩ := hparas
  refine ⟨dH, dP, ?_, hpH, hpP⟩
  rw [hdP, hdH, List.nil_append]

/-- Combined facts about one fragment's extraction: distinct ids, id
shapes, and nonempty trimmed text on every paragraph block. -/
theorem extract_facts (html cid : Str) (cIdx : Nat) :
    ((extractParagraphsFromHTML html cid cIdx).map Block.id).Nodup ∧
    (∀ b ∈ extractParagraphsFromHTML html cid cIdx,
      (∃ k, b.id = eParaId cid k ∨ b.id = eHeadId cid k) ∧
      (b.btype = .paragraph → trimStr b.text ≠ [])) := by
  unfold extractParagraphsFromHTML
  set text := stripTagBlocks (str "style") (stripTagBlocks (str "script") html)
    with htext
  have hinv := withParas_inv text cid cIdx
  obtain ⟨hs, ps, hsplit, hHs, hPs⟩ := mainPath_split text cid cIdx
  by_cases hfb : (eAllBlocks text cid cIdx).isEmpty = true
  · rw [if_pos hfb]
    have hfacts := fallbackGo_facts cid cIdx
      ((splitOnCh '\n' (stripHTML text)).filter (fun l => !(trimStr l).isEmpty)) 0
    refine ⟨hfacts.1, ?_⟩
    intro b hb
    obtain ⟨⟨k, _, hid⟩, hty, htx⟩ := hfacts.2 b hb
    exact ⟨⟨k, Or.inl hid⟩, fun _ => htx⟩
  · rw [if_neg hfb]
    refine ⟨hinv.1, ?_⟩
    intro b hb
    refine ⟨?_, ?_⟩
    · obtain ⟨k, _, hk⟩ := hinv.2 b hb
      exact ⟨k, hk⟩
    · intro hbty
      rw [hsplit] at hb
      rcases List.mem_append.1 hb with hb | hb
      · rw [hHs b hb] at hbty
        cases hbty
      · exact (hPs b hb).2

/-- Every block of the multi-fragment extraction carries the id shape of
its own fragment. -/
theorem extractContentGo_shape :
    ∀ (frags : List (Str × Str)) (i : Nat),
      ∀ b ∈ extractContentGo i frags,
        ∃ cid, cid ∈ frags.map Prod.fst ∧
          ∃ k, b.id = eParaId cid k ∨ b.id = eHeadId cid k
  | [], _, b, hb => by simp [extractContentGo] at hb
  | (cid, html) :: rest, i, b, hb => by
    unfold extractContentGo at hb
    rcases List.mem_append.1 hb with hb | hb
    · obtain ⟨⟨k, hk⟩, _⟩ := (extract_facts html cid i).2 b hb
      exact ⟨cid, by simp, k, hk⟩
    · obtain ⟨cid', hcid', k, hk⟩ := extractContentGo_shape rest (i + 1) b hb
      exact ⟨cid', by simp [hcid'], k, hk⟩

/-- Two id shapes with distinct chapter ids are distinct. -/
theorem eShape_ne {c1 c2 : Str} {i1 i2 : Str} {k1 k2 : Nat} (hc : c1 ≠ c2)
    (h1 : i1 = eParaId c1 k1 ∨ i1 = eHeadId c1 k1)
    (h2 : i2 = eParaId c2 k2 ∨ i2 = eHeadId c2 k2) : i1 ≠ i2 := by
  intro he
  rcases h1 with h1 | h1 <;> rcases h2 with h2 | h2 <;> rw [h1, h2] at he
  · exact hc (eParaId_inj he).1
  · exact absurd he eParaId_ne_eHeadId
  · exact absurd he.symm eParaId_ne_eHeadId
  · exact hc (eHeadId_inj he).1

/-- With pairwise distinct fragment identifiers, the concatenated block
stream has pairwise distinct ids. -/
theorem extractContentGo_nodup :
    ∀ (frags : List (Str × Str)) (i : Nat),
      (frags.map Prod.fst).Nodup →
      ((extractContentGo i frags).map Block.id).Nodup
  | [], _, _ => by simp [extractContentGo]
  | (cid, html) :: rest, i, hnd => by
    rw [List.map_cons, List.nodup_cons] at hnd
    unfold extractContentGo
    rw [List.map_append, List.nodup_append]
    refine ⟨(extract_facts html cid i).1, extractContentGo_nodup rest (i + 1) hnd.2, ?_⟩
    intro xid hx hy
    simp only [List.mem_map] at hx hy
    obtain ⟨b1, hb1, rfl⟩ := hx
    obtain ⟨b2, hb2, hid2⟩ := hy
    obtain ⟨⟨k1, hk1⟩, _⟩ := (extract_facts html cid i).2 b1 hb1
    obtain ⟨cid', hcid', k2, hk2⟩ := extractContentGo_shape rest (i + 1) b2 hb2
    have hne : cid ≠ cid' := fun he => hnd.1 (he ▸ hcid')
    exact eShape_ne hne hk1 (hid2 ▸ hk2) rfl

/-! ### Helper lemmas: split/token-count correspondence

For a string with no trailing whitespace, the JS `split(/\s+/)` chunk
count in a non-separator state exceeds the remaining token count by one
(the open chunk), and in a separator state equals it; a trimmed nonempty
string therefore has as many split chunks as whitespace-separated
tokens. -/

/-- No-trailing-whitespace predicate. -/
def lastNotWS (l : Str) : Prop := ∀ c, l.getLast? = some c → isWS c = false

/-- Model of `lastNotWS` passes to the tail. -/
theorem lastNotWS_tail {c : Char} {rest : Str} (h : lastNotWS (c :: rest)) :
    lastNotWS rest := by
  intro d hd
  apply h d
  cases rest with
  | nil => simp at hd
  | cons x xs => rw [List.getLast?_cons_cons]; exact hd

/-- A whitespace character cannot close a `lastNotWS` string. -/
theorem lastNotWS_singleton {c : Char} (h : lastNotWS [c]) (hws : isWS c = true) :
    False := by
  have := h c (by simp)
  rw [this] at hws
  cases hws

/-- The chunk/token correspondence, both machine states at once. -/
theorem splitGo_tokenGo : ∀ (l : Str),
    (lastNotWS l → ∀ acc, (jsSplitGo l acc false).length = specTokenGo l true + 1) ∧
    (l ≠ [] → lastNotWS l → (jsSplitGo l [] true).length = specTokenGo l false)
  | [] => by
    constructor
    · intro _ acc
      simp [jsSplitGo, specTokenGo]
    · intro h
      exact absurd rfl h
  | c :: rest => by
    have ih := splitGo_tokenGo rest
    constructor
    · intro hlast acc
      by_cases hc : isWS c = true
      · have hrest : rest ≠ [] := by
          rintro rfl
          exact lastNotWS_singleton hlast hc
        simp only [jsSplitGo, specTokenGo, hc, if_true, Bool.false_eq_true, if_false,
          List.length_cons]
        rw [ih.2 hrest (lastNotWS_tail hlast)]
      · simp only [jsSplitGo, specTokenGo, hc, Bool.false_eq_true, if_false]
        rw [(ih.1 (lastNotWS_tail hlast)) (c :: acc)]
        simp
    · intro _ hlast
      by_cases hc : isWS c = true
      · have hrest : rest ≠ [] := by
          rintro rfl
          exact lastNotWS_singleton hlast hc
        simp only [jsSplitGo, specTokenGo, hc, if_true]
        rw [ih.2 hrest (lastNotWS_tail hlast)]
      · simp only [jsSplitGo, specTokenGo, hc, Bool.false_eq_true, if_false, if_true]
        rw [(ih.1 (lastNotWS_tail hlast)) [c]]
        omega

/-- A trimmed string has no trailing whitespace. -/
theorem trimmed_lastNotWS {s : Str} (h : trimStr s = s) : lastNotWS s := by
  intro c hc
  rw [← h] at hc
  exact trimStr_getLast hc

/-- On a self-trimmed text, the JS `split(/\s+/)` summand of
`totalWords` equals the whitespace-token count. -/
theorem blockWordCount_trimmed {b : Block} (h : trimStr b.text = b.text) :
    blockWordCount b = specTokenCount b.text := by
  unfold blockWordCount specTokenCount
  cases hcase : b.text with
  | nil => simp [hcase, jsSplitWS, jsSplitGo, specTokenGo]
  | cons c rest =>
    simp only [List.isEmpty_cons, Bool.false_eq_true, if_false]
    have hhead : isWS c = false := by
      apply trimStr_head (s := b.text)
      rw [h, hcase]
    have hlast : lastNotWS (c :: rest) := by
      rw [← hcase]
      exact trimmed_lastNotWS h
    show (jsSplitGo (c :: rest) [] false).length = specTokenGo (c :: rest) false
    simp only [jsSplitGo, specTokenGo, hhead, Bool.false_eq_true, if_false]
    rw [(splitGo_tokenGo rest).1 (lastNotWS_tail hlast) [c]]
    omega

/-! ### Helper lemmas: exporter -/

/-- The page-entry guard `item.text && item.text.trim()` is equivalent to
a nonempty trimmed text. -/
theorem textCond (t : Str) :
    (!t.isEmpty && !(trimStr t).isEmpty) = !(trimStr t).isEmpty := by
  cases t with
  | nil => rfl
  | cons c r => simp [List.isEmpty_cons]

/-- The `en` fields of one chapter's page entries are exactly the trimmed
texts of its usable blocks, regardless of the generator state. -/
theorem buildEntries_en : ∀ (l : List Block) (g : GenSt),
    ((buildEntries l g).1).map ChapEntry.en =
      (l.filter (fun b => !(trimStr b.text).isEmpty)).map (fun b => trimStr b.text)
  | [], _ => rfl
  | b :: rest, g => by
    unfold buildEntries
    rw [show (!b.text.isEmpty && !(trimStr b.text).isEmpty) =
        !(trimStr b.text).isEmpty from textCond b.text]
    rw [List.filter_cons]
    by_cases hc : (trimStr b.text).isEmpty = true
    · simp only [hc, Bool.not_true, Bool.false_eq_true, if_false]
      exact buildEntries_en rest g
    · simp only [hc, Bool.not_false, if_true, Bool.false_eq_true]
      simp only [List.map_cons]
      rw [← buildEntries_en rest ((genRaw g).2)]

/-- Blocks without a chapter tag synthesize no chapters. -/
theorem chaptersFromContent_none : ∀ (l : List Block) (m : List (Str × ChapterRec)),
    (∀ b ∈ l, b.chapter = none) → chaptersFromContent l m = m
  | [], _, _ => rfl
  | b :: rest, m, h => by
    unfold chaptersFromContent
    rw [h b (by simp)]
    exact chaptersFromContent_none rest m (fun x hx => h x (by simp [hx]))

/-- With an empty TOC and untagged content, exactly the single default
chapter is synthesized. -/
theorem validChaptersOf_default (content : List Block)
    (h : ∀ b ∈ content, b.chapter = none) :
    validChaptersOf [] content = [defaultChapter] := by
  show (if ((chaptersFromContent content []).map Prod.snd).isEmpty = true
        then [defaultChapter]
        else (chaptersFromContent content []).map Prod.snd) = [defaultChapter]
  rw [chaptersFromContent_none content [] h]
  rfl

/-- Untagged blocks all land in the single default bucket, in order. -/
theorem groupAll : ∀ (content : List Block) (acc0 : List Block),
    (∀ b ∈ content, b.chapter = none) →
    content.foldl (assignBlock [defaultChapter])
      [(some (str "default"), acc0)] = [(some (str "default"), acc0 ++ content)]
  | [], acc0, _ => by simp
  | b :: rest, acc0, h => by
    rw [List.foldl_cons]
    have hstep : assignBlock [defaultChapter] [(some (str "default"), acc0)] b =
        [(some (str "default"), acc0 ++ [b])] := by
      unfold assignBlock
      rw [h b (by simp)]
      have hhas : alHas (some (str "default")) [(some (str "default"), acc0)] = true := by
        simp [alHas]
      rw [if_pos hhas]
      simp [alAppend]
    rw [hstep, groupAll rest (acc0 ++ [b]) (fun x hx => h x (by simp [hx]))]
    simp

/-- The written chapter paths are, chapter by chapter, the output
directory joined with the chapter's own slug — no cross-chapter
disambiguation is applied. -/
theorem buildChapterFiles_paths (outDir : Str)
    (buckets : List (Option Str × List Block)) :
    ∀ (chs : List ChapterRec) (g : GenSt),
      ((buildChapterFiles outDir buckets chs g).1).map Prod.fst =
        chs.map (fun ch => outDir ++ '/' :: (ch.file ++ str ".json"))
  | [], _ => rfl
  | ch :: rest, g => by
    unfold buildChapterFiles
    simp only [List.map_cons]
    rw [← buildChapterFiles_paths outDir buckets rest
      (buildEntries ((alGet ch.tocId buckets).getD []) g).2]

/-! ### Helper lemmas: ISO timestamp shape -/

/-- Digit-character code bounds. -/
theorem digit_toNat {c : Char} (h : isDigitCh c = true) :
    48 ≤ c.toNat ∧ c.toNat ≤ 57 := by
  simp only [isDigitCh, Bool.and_eq_true, decide_eq_true_eq] at h
  obtain ⟨h1, h2⟩ := h
  rw [Char.le_def] at h1 h2
  exact ⟨h1, h2⟩

/-- Value bound of the digit fold. -/
theorem foldlVal_lt : ∀ (l : Str) (a B : Nat),
    (∀ c ∈ l, isDigitCh c = true) → a < B →
    l.foldl (fun a c => a * 10 + (c.toNat - 48)) a < B * 10 ^ l.length
  | [], _, _, _, h => by simpa
  | c :: rest, a, B, hd, h => by
    rw [List.foldl_cons]
    have hc := digit_toNat (hd c (by simp))
    have hstep : a * 10 + (c.toNat - 48) < B * 10 := by omega
    have := foldlVal_lt rest (a * 10 + (c.toNat - 48)) (B * 10)
      (fun x hx => hd x (by simp [hx])) hstep
    calc List.foldl (fun a c => a * 10 + (c.toNat - 48)) (a * 10 + (c.toNat - 48)) rest
        < B * 10 * 10 ^ rest.length := this
      _ = B * 10 ^ (c :: rest).length := by
          rw [List.length_cons, Nat.mul_assoc, ← Nat.pow_succ']

/-- An all-digit string's value is below `10^length`. -/
theorem digitsVal_lt {l : Str} (h : ∀ c ∈ l, isDigitCh c = true) :
    digitsVal l < 10 ^ l.length := by
  have := foldlVal_lt l 0 1 h (by omega)
  simpa [digitsVal] using this

/-- A fixed-width all-digit segment. -/
def digitsBlock (l : Str) (k : Nat) : Prop :=
  l.length = k ∧ ∀ c ∈ l, isDigitCh c = true

/-- Zero-padding a number below `10^k` yields a `k`-wide digit block. -/
theorem padStartZ_block {n k : Nat} (h : n < 10 ^ k) (hk : 1 ≤ k) :
    digitsBlock (padStartZ k (natDigits n)) k := by
  have hlen := natDigits_len_le h hk
  constructor
  · simp only [padStartZ, List.length_append, List.length_replicate]
    omega
  · intro c hc
    rcases List.mem_append.1 hc with hc | hc
    · rw [List.eq_of_mem_replicate hc]
      decide
    · exact natDigits_digits c hc

/-- ISO-8601 timestamp shape, as produced by `toISOString`:
`YYYY-MM-DDTHH:MM:SS.mmmZ` (four-digit year) or the expanded
`+YYYYYY-…` form. -/
def isISOTimestamp (t : Str) : Prop :=
  ∃ y mo da h mi se ms : Str,
    digitsBlock mo 2 ∧ digitsBlock da 2 ∧ digitsBlock h 2 ∧ digitsBlock mi 2 ∧
    digitsBlock se 2 ∧ digitsBlock ms 3 ∧
    ((digitsBlock y 4 ∧
        t = y ++ '-' :: mo ++ '-' :: da ++ 'T' :: h ++ ':' :: mi ++ ':' :: se ++
          '.' :: ms ++ ['Z']) ∨
     (digitsBlock y 6 ∧
        t = '+' :: (y ++ '-' :: mo ++ '-' :: da ++ 'T' :: h ++ ':' :: mi ++ ':' :: se ++
          '.' :: ms ++ ['Z'])))

/-- Splitting the literal `".000Z"` tail. -/
theorem tailZ (X : Str) : X ++ str ".000Z" = (X ++ '.' :: str "000") ++ ['Z'] := by
  rw [List.append_assoc]
  rfl

/-- Model of `renderISO` always produces an ISO-8601 timestamp shape. -/
theorem renderISO_shape {y mo da h mi se : Nat} (hy : y < 10 ^ 6)
    (hmo : mo < 100) (hda : da < 100) (hh : h < 100) (hmi : mi < 100)
    (hse : se < 100) : isISOTimestamp (renderISO y mo da h mi se) := by
  have bmo := padStartZ_block (show mo < 10 ^ 2 by omega) (by omega)
  have bda := padStartZ_block (show da < 10 ^ 2 by omega) (by omega)
  have bh := padStartZ_block (show h < 10 ^ 2 by omega) (by omega)
  have bmi := padStartZ_block (show mi < 10 ^ 2 by omega) (by omega)
  have bse := padStartZ_block (show se < 10 ^ 2 by omega) (by omega)
  have bms : digitsBlock (str "000") 3 := ⟨by decide, by decide⟩
  by_cases h4 : y < 10000
  · refine ⟨padStartZ 4 (natDigits y), _, _, _, _, _, str "000",
      bmo, bda, bh, bmi, bse, bms, Or.inl ⟨padStartZ_block (show y < 10 ^ 4 by omega) (by omega), ?_⟩⟩
    unfold renderISO
    rw [if_pos h4, tailZ]
  · refine ⟨padStartZ 6 (natDigits y), _, _, _, _, _, str "000",
      bmo, bda, bh, bmi, bse, bms, Or.inr ⟨padStartZ_block hy (by omega), ?_⟩⟩
    unfold renderISO
    rw [if_neg h4, tailZ]
    rfl

/-- Months never exceed 31 days in the calendar table. -/
theorem daysInMonth_le (y m : Nat) : daysInMonth y m ≤ 31 := by
  unfold daysInMonth
  split
  · omega
  · split
    · omega
    · split
      · split <;> omega
      · omega

/-- The cleaned date-digit buffer is at least 14 characters. -/
theorem padEnd14_len (l : Str) : 14 ≤ (padEnd14 l).length := by
  simp only [padEnd14, List.length_append, List.length_replicate]
  omega

/-- The cleaned date-digit buffer holds only digits. -/
theorem padEnd14_digits (s : Str) :
    ∀ c ∈ padEnd14 ((stripDColon s).filter isDigitCh), isDigitCh c = true := by
  intro c hc
  rcases List.mem_append.1 hc with hc | hc
  · exact List.of_mem_filter hc
  · rw [List.eq_of_mem_replicate hc]
    decide

/-- Value bound for a slice of the cleaned buffer. -/
theorem slice_lt (s : Str) (d k : Nat) (hk : 1 ≤ k) :
    digitsVal (((padEnd14 ((stripDColon s).filter isDigitCh)).drop d).take k) < 10 ^ k := by
  have hd : ∀ c ∈ ((padEnd14 ((stripDColon s).filter isDigitCh)).drop d).take k,
      isDigitCh c = true := by
    intro c hc
    exact padEnd14_digits s c (List.mem_of_mem_drop (List.mem_of_mem_take hc))
  have := digitsVal_lt hd
  calc digitsVal (((padEnd14 ((stripDColon s).filter isDigitCh)).drop d).take k)
      < 10 ^ (((padEnd14 ((stripDColon s).filter isDigitCh)).drop d).take k).length := this
    _ ≤ 10 ^ k := by
        apply Nat.pow_le_pow_right (by omega)
        simp [List.length_take]

/-- Bounds of the `24:00` day rollover. -/
theorem nextDay_bounds {y mo da : Nat} (hmo : mo ≤ 12) (hda : da ≤ daysInMonth y mo)
    (hy : y < 10 ^ 4) :
    (nextDay y mo da).1 < 10 ^ 6 ∧ (nextDay y mo da).2.1 < 100 ∧
      (nextDay y mo da).2.2 < 100 := by
  have h31 := daysInMonth_le y mo
  unfold nextDay
  split
  · dsimp only
    exact ⟨by omega, by omega, by omega⟩
  · split
    · dsimp only
      exact ⟨by omega, by omega, by omega⟩
    · dsimp only
      exact ⟨by omega, by omega, by omega⟩

/-! ### Claim theorems -/

/-- C2 (counterexample): on the input
`"Chapter 1\n\nHello world.\n\nChapter 2\n\nBye."` the plain-text
segmenter does **not** produce Heading/Paragraph/Heading/Paragraph — the
prose lines are classified as headings too, because the weak short-line
heuristic only checks the CJK sentence punctuation `。`/`，`. -/
theorem c2_counterexample :
    ¬ ((extractStructureFromText
        (str "Chapter 1\n\nHello world.\n\nChapter 2\n\nBye.")).1.map
          (fun b => (b.btype, b.text, b.level)) =
      [(.heading, str "Chapter 1", some 1), (.paragraph, str "Hello world.", none),
       (.heading, str "Chapter 2", some 1), (.paragraph, str "Bye.", none)]) := by
  decide

/-- C2 (amended): on that input the segmenter produces exactly four
blocks, all headings of level 1 — `heading_0 "Chapter 1"`,
`heading_1 "Hello world."`, `heading_2 "Chapter 2"`, `heading_3 "Bye."` —
and no TOC entries. -/
theorem c2_amended :
    extractStructureFromText (str "Chapter 1\n\nHello world.\n\nChapter 2\n\nBye.") =
      ([⟨str "heading_0", .heading, str "Chapter 1", some 1, none, none⟩,
        ⟨str "heading_1", .heading, str "Hello world.", some 1, none, none⟩,
        ⟨str "heading_2", .heading, str "Chapter 2", some 1, none, none⟩,
        ⟨str "heading_3", .heading, str "Bye.", some 1, none, none⟩], []) := by
  decide

/-- C3 (counterexample): the markup extractor emits a block with empty
text for an empty heading element — `<h1></h1>` yields a heading block
whose trimmed text has length 0. -/
theorem c3_counterexample :
    ¬ (∀ b ∈ extractParagraphsFromHTML (str "<h1></h1><p>Hello</p>") (str "c") 0,
        0 < (trimStr b.text).length) := by
  decide

/-- C3 (amended): every block of the plain-text segmenter has nonempty
trimmed text, and every **paragraph** block of the markup extractor has
nonempty trimmed text; heading blocks of the markup extractor may be
empty (see the counterexample). -/
theorem c3_amended :
    (∀ text : Str, ∀ b ∈ (extractStructureFromText text).1,
      0 < (trimStr b.text).length) ∧
    (∀ html cid : Str, ∀ cIdx : Nat,
      ∀ b ∈ extractParagraphsFromHTML html cid cIdx,
        b.btype = .paragraph → 0 < (trimStr b.text).length) := by
  constructor
  · intro text b hb
    have := (extractStructureFromText_inv text).2 b hb
    exact List.length_pos.2 this
  · intro html cid cIdx b hb hty
    have := ((extract_facts html cid cIdx).2 b hb).2 hty
    exact List.length_pos.2 this

/-- Witness for C3 (amended) at concrete inputs. -/
theorem c3_amended_witness :
    0 < (trimStr (Block.text ⟨str "heading_0", .heading, str "Hi", some 1, none,
      none⟩)).length ∧
    0 < (trimStr (Block.text ⟨str "c_para_0", .paragraph, str "Hello", none,
      some (str "c"), some 0⟩)).length :=
  ⟨c3_amended.1 (str "Hi") _ (by decide),
   c3_amended.2 (str "<p>Hello</p>") (str "c") 0 _ (by decide) rfl⟩

/-- C7 (counterexample): in `"<p>Text.</p><h1>Intro</h1>"` the paragraph
precedes the heading in the markup, yet the extractor emits the heading
first — source order between headings and paragraphs is not preserved. -/
theorem c7_counterexample :
    ((extractParagraphsFromHTML (str "<p>Text.</p><h1>Intro</h1>") (str "c") 0).map
        (fun b => (b.btype, b.text)) =
      [(.heading, str "Intro"), (.paragraph, str "Text.")]) ∧
    ¬ ((extractParagraphsFromHTML (str "<p>Text.</p><h1>Intro</h1>") (str "c") 0).map
        (fun b => (b.btype, b.text)) =
      [(.paragraph, str "Text."), (.heading, str "Intro")]) := by
  constructor
  · decide
  · decide

/-- C7 (amended): within one fragment the extractor always emits all
heading spans (in source order) followed by all paragraph spans (in
source order) — so the spec's concrete heading-first example does hold,
but a paragraph that precedes a heading in the markup is emitted after
it. -/
theorem c7_amended :
    (∀ html cid : Str, ∀ cIdx : Nat, ∃ hs ps : List Block,
      extractParagraphsFromHTML html cid cIdx = hs ++ ps ∧
      (∀ b ∈ hs, b.btype = .heading) ∧ (∀ b ∈ ps, b.btype = .paragraph)) ∧
    ((extractParagraphsFromHTML (str "<h1>Intro</h1><p>Text.</p>") (str "c") 0).map
        (fun b => (b.btype, b.text)) =
      [(.heading, str "Intro"), (.paragraph, str "Text.")]) := by
  constructor
  · intro html cid cIdx
    unfold extractParagraphsFromHTML
    set text := stripTagBlocks (str "style") (stripTagBlocks (str "script") html)
    by_cases hfb : (eAllBlocks text cid cIdx).isEmpty = true
    · rw [if_pos hfb]
      refine ⟨[], _, by rw [List.nil_append], by intro b hb; simp at hb, ?_⟩
      intro b hb
      exact ((fallbackGo_facts cid cIdx _ 0).2 b hb).2.1
    · rw [if_neg hfb]
      obtain ⟨hs, ps, hsplit, hH, hP⟩ := mainPath_split text cid cIdx
      exact ⟨hs, ps, hsplit, hH, fun b hb => (hP b hb).1⟩
  · decide

/-- Witness for C7 (amended) at a concrete input. -/
theorem c7_amended_witness :
    ∃ hs ps : List Block,
      extractParagraphsFromHTML (str "<p>Text.</p><h1>Intro</h1>") (str "c") 0 =
        hs ++ ps ∧
      (∀ b ∈ hs, b.btype = .heading) ∧ (∀ b ∈ ps, b.btype = .paragraph) :=
  c7_amended.1 (str "<p>Text.</p><h1>Intro</h1>") (str "c") 0

/-- C9 (counterexample): a caller supplying no `language` gets the
default `'zh-CN'`, which is neither the empty string nor null — the
claim's "defaults to the empty string or null" fails for `language`. -/
theorem c9_counterexample :
    (createDocumentStructure {} [] ([] : List Unit) ([] : List Unit)).metadata.language =
      some (.jstr (str "zh-CN")) ∧
    (some (JVal.jstr (str "zh-CN")) ≠ some (JVal.jstr [])) ∧
    (some (JVal.jstr (str "zh-CN")) ≠ some JVal.jnull) := by
  refine ⟨rfl, by decide, by decide⟩

/-- C9 (amended): all eight metadata fields are always present on the
built model; a field not supplied by the caller defaults to the empty
string (title, author, creator, subject, keywords), to null
(creationDate, modificationDate) — except `language`, which defaults to
`'zh-CN'`. -/
theorem c9_amended (m : MetaIn) (content : List Block) {ι τ : Type}
    (images : List ι) (toc : List τ) :
    ((createDocumentStructure m content images toc).metadata.title.isSome ∧
     (createDocumentStructure m content images toc).metadata.author.isSome ∧
     (createDocumentStructure m content images toc).metadata.creator.isSome ∧
     (createDocumentStructure m content images toc).metadata.subject.isSome ∧
     (createDocumentStructure m content images toc).metadata.keywords.isSome ∧
     (createDocumentStructure m content images toc).metadata.creationDate.isSome ∧
     (createDocumentStructure m content images toc).metadata.modificationDate.isSome ∧
     (createDocumentStructure m content images toc).metadata.language.isSome) ∧
    (m.title = none →
      (createDocumentStructure m content images toc).metadata.title =
        some (.jstr [])) ∧
    (m.author = none →
      (createDocumentStructure m content images toc).metadata.author =
        some (.jstr [])) ∧
    (m.creator = none →
      (createDocumentStructure m content images toc).metadata.creator =
        some (.jstr [])) ∧
    (m.subject = none →
      (createDocumentStructure m content images toc).metadata.subject =
        some (.jstr [])) ∧
    (m.keywords = none →
      (createDocumentStructure m content images toc).metadata.keywords =
        some (.jstr [])) ∧
    (m.creationDate = none →
      (createDocumentStructure m content images toc).metadata.creationDate =
        some .jnull) ∧
    (m.modificationDate = none →
      (createDocumentStructure m content images toc).metadata.modificationDate =
        some .jnull) ∧
    (m.language = none →
      (createDocumentStructure m content images toc).metadata.language =
        some (.jstr (str "zh-CN"))) := by
  refine ⟨⟨?_, ?_, ?_, ?_, ?_, ?_, ?_, ?_⟩, ?_, ?_, ?_, ?_, ?_, ?_, ?_, ?_⟩
  · cases h : m.title <;> simp [createDocumentStructure, mergeField, h]
  · cases h : m.author <;> simp [createDocumentStructure, mergeField, h]
  · cases h : m.creator <;> simp [createDocumentStructure, mergeField, h]
  · cases h : m.subject <;> simp [createDocumentStructure, mergeField, h]
  · cases h : m.keywords <;> simp [createDocumentStructure, mergeField, h]
  · cases h : m.creationDate <;> simp [createDocumentStructure, mergeField, h]
  · cases h : m.modificationDate <;> simp [createDocumentStructure, mergeField, h]
  · cases h : m.language <;> simp [createDocumentStructure, mergeField, h]
  all_goals intro h
  all_goals simp [createDocumentStructure, mergeField, h]

/-- Witness for C9 (amended): the defaults at the empty metadata record. -/
theorem c9_amended_witness :
    (createDocumentStructure {} [] ([] : List Unit) ([] : List Unit)).metadata.title =
      some (.jstr []) ∧
    (createDocumentStructure {} [] ([] : List Unit) ([] : List Unit)).metadata.language =
      some (.jstr (str "zh-CN")) :=
  ⟨(c9_amended {} [] [] []).2.1 rfl, (c9_amended {} [] [] []).2.2.2.2.2.2.2.2 rfl⟩

/-- Summing via `reduce` equals summing the mapped list. -/
theorem foldl_wordSum : ∀ (l : List Block) (a : Nat),
    l.foldl (fun sum b => sum + blockWordCount b) a = a + (l.map blockWordCount).sum
  | [], a => by simp
  | b :: rest, a => by
    rw [List.foldl_cons, foldl_wordSum rest (a + blockWordCount b)]
    simp [List.sum_cons]
    omega

/-- On self-trimmed texts the two per-block counts agree listwise. -/
theorem map_blockWordCount {content : List Block}
    (h : ∀ b ∈ content, trimStr b.text = b.text) :
    content.map blockWordCount = content.map (fun b => specTokenCount b.text) := by
  induction content with
  | nil => rfl
  | cons b rest ih =>
    rw [List.map_cons, List.map_cons, blockWordCount_trimmed (h b (by simp)),
      ih (fun x hx => h x (by simp [hx]))]

/-- C5 (counterexample): on a block whose text is `" a"` the code's
`split(/\s+/).length` counts the empty leading chunk, so
`stats.totalWords = 2` while the number of whitespace-separated tokens is
1 — the claim's `totalWords` equation fails on arbitrary content. -/
theorem c5_counterexample :
    (createDocumentStructure {} [⟨str "para_0", .paragraph, str " a", none, none, none⟩]
      ([] : List Unit) ([] : List Unit)).stats.totalWords = 2 ∧
    (([⟨str "para_0", BType.paragraph, str " a", none, none, none⟩] : List Block).map
      (fun b => specTokenCount b.text)).sum = 1 ∧
    (2 : Nat) ≠ 1 := by
  refine ⟨by decide, by decide, by decide⟩

/-- C5 (amended): the three length equations hold exactly for every
input; `totalWords` is the sum of the JS `split(/\s+/)` chunk counts
(zero for an empty text), which equals the sum of whitespace-token counts
whenever every block text is already trimmed — as all pipeline-produced
blocks are — but counts one extra chunk per leading/trailing-whitespace
text in general. -/
theorem c5_amended (m : MetaIn) (content : List Block) {ι τ : Type}
    (images : List ι) (toc : List τ) :
    (createDocumentStructure m content images toc).stats.totalParagraphs =
      content.length ∧
    (createDocumentStructure m content images toc).stats.totalImages =
      images.length ∧
    (createDocumentStructure m content images toc).stats.totalTocItems =
      toc.length ∧
    (createDocumentStructure m content images toc).stats.totalWords =
      (content.map blockWordCount).sum ∧
    ((∀ b ∈ content, trimStr b.text = b.text) →
      (createDocumentStructure m content images toc).stats.totalWords =
        (content.map (fun b => specTokenCount b.text)).sum) := by
  refine ⟨rfl, rfl, rfl, ?_, ?_⟩
  · show content.foldl (fun sum b => sum + blockWordCount b) 0 = _
    rw [foldl_wordSum]
    omega
  · intro h
    show content.foldl (fun sum b => sum + blockWordCount b) 0 = _
    rw [foldl_wordSum, map_blockWordCount h]
    omega

/-- Witness for C5 (amended) at a concrete trimmed-content model. -/
theorem c5_amended_witness :
    (createDocumentStructure {} [⟨str "para_0", .paragraph, str "a b", none, none,
      none⟩] ([] : List Unit) ([] : List Unit)).stats.totalWords =
      (([⟨str "para_0", BType.paragraph, str "a b", none, none, none⟩] : List Block).map
        (fun b => specTokenCount b.text)).sum :=
  (c5_amended {} [⟨str "para_0", .paragraph, str "a b", none, none, none⟩]
    [] []).2.2.2.2 (by decide)

/-- C1 (counterexample): two TOC chapters titled `"Chapter 1!"` and
`"Chapter 1?"` both collapse to the slug `chapter_1`; the exporter writes
both chapter files to the same path — the second write targets a
previously-written chapter file path of the same export call. -/
theorem c1_counterexample :
    ((generateBookInfoFiles
        ⟨str "T", [], [⟨str "Chapter 1!", none, 1, some (str "a"), none⟩,
                       ⟨str "Chapter 1?", none, 1, some (str "b"), none⟩], []⟩
        (str "out") [] (str "bid") ⟨fun _ => 0, 0, 0⟩).1).chapterFiles =
      [str "out/chapter_1.json", str "out/chapter_1.json"] ∧
    ¬ ((generateBookInfoFiles
        ⟨str "T", [], [⟨str "Chapter 1!", none, 1, some (str "a"), none⟩,
                       ⟨str "Chapter 1?", none, 1, some (str "b"), none⟩], []⟩
        (str "out") [] (str "bid") ⟨fun _ => 0, 0, 0⟩).1).chapterFiles.Nodup := by
  exact ⟨by decide, by decide⟩

/-- C1 (amended): the exporter applies no collision disambiguation: each
written chapter file path is the output directory joined with that
chapter's own slug (`chapterNameToFileName` of its name, or the
positional fallback baked into `validChaptersOf`), independently of all
other chapters — so distinct chapters whose names collapse to the same
slug receive the same path and the later write overwrites the earlier
one. -/
theorem c1_amended (doc : ExportDoc) (outDir filePath bookId : Str) (g : GenSt) :
    ((generateBookInfoFiles doc outDir filePath bookId g).1).chapterFiles =
      (validChaptersOf doc.toc doc.content).map
        (fun ch => outDir ++ '/' :: (ch.file ++ str ".json")) := by
  show ((buildChapterFiles outDir
      (groupContent (validChaptersOf doc.toc doc.content) doc.content)
      (validChaptersOf doc.toc doc.content) g).1).map Prod.fst = _
  rw [buildChapterFiles_paths]

/-- C4: block ids are pairwise distinct within one document's content
array on each extraction path — TXT, PDF, and the multi-fragment markup
path whenever the fragment identifiers are pairwise distinct. -/
theorem c4_block_ids_unique :
    (∀ text : Str, ((extractStructureFromText text).1.map Block.id).Nodup) ∧
    (∀ text : Str, ((extractParagraphsPdf text).map Block.id).Nodup) ∧
    (∀ frags : List (Str × Str), (frags.map Prod.fst).Nodup →
      ((extractContentModel frags).map Block.id).Nodup) := by
  refine ⟨?_, extractParagraphsPdf_nodup, ?_⟩
  · intro text
    exact (extractStructureFromText_inv text).1
  · intro frags h
    exact extractContentGo_nodup frags 0 h

/-- Witness for C4 at a concrete two-fragment input. -/
theorem c4_block_ids_unique_witness :
    ((extractContentModel [(str "a", str "<p>x</p>"), (str "b", str "<p>y</p>")]).map
      Block.id).Nodup :=
  c4_block_ids_unique.2.2 [(str "a", str "<p>x</p>"), (str "b", str "<p>y</p>")]
    (by decide)

/-- Leading zeros do not change the decoded value. -/
theorem digitsVal_replicate_zero : ∀ (k : Nat) (l : Str),
    digitsVal (List.replicate k '0' ++ l) = digitsVal l
  | 0, _ => rfl
  | k + 1, l => by
    rw [List.replicate_succ, List.cons_append]
    show digitsVal (List.replicate k '0' ++ l) = digitsVal l
    exact digitsVal_replicate_zero k l

/-- Model of `padStart` with zeros preserves the decoded value. -/
theorem padStartZ_val (k : Nat) (l : Str) : digitsVal (padStartZ k l) = digitsVal l :=
  digitsVal_replicate_zero _ l

/-- The last-12 slice of a 12-plus-digit timestamp has length 12. -/
theorem lastN_len {l : Str} (h : 12 ≤ l.length) : (lastN 12 l).length = 12 := by
  simp only [lastN, List.length_drop]
  omega

/-- Structure of `uniqueIdCore` under a realistic timestamp. -/
theorem uniqueIdCore_facts {ts c : Nat} (hts : 10 ^ 11 ≤ ts) (hc : c < 10000) :
    (uniqueIdCore ts c).length = 16 ∧
    (∀ x ∈ uniqueIdCore ts c, isDigitCh x = true) ∧
    (uniqueIdCore ts c).take 12 = lastN 12 (natDigits ts) ∧
    (uniqueIdCore ts c).drop 12 = padStartZ 4 (natDigits c) := by
  have hge : 12 ≤ (natDigits ts).length := natDigits_len_ge hts
  have h12 := lastN_len hge
  have hpad := padStartZ_block (show c < 10 ^ 4 by omega) (by omega)
  refine ⟨?_, ?_, ?_, ?_⟩
  · simp only [uniqueIdCore, List.length_append, h12, hpad.1]
  · intro x hx
    rcases List.mem_append.1 hx with hx | hx
    · exact natDigits_digits x (List.mem_of_mem_drop hx)
    · exact hpad.2 x hx
  · show (lastN 12 (natDigits ts) ++ padStartZ 4 (natDigits c)).take 12 = _
    exact List.take_left' h12
  · show (lastN 12 (natDigits ts) ++ padStartZ 4 (natDigits c)).drop 12 = _
    exact List.drop_left' h12

/-- C6: under any realistic millisecond timestamp (at least 12 decimal
digits, true since 2001), both generators return a 16-character decimal
string equal to the last 12 digits of the timestamp followed by the
4-digit zero-padded counter; the parser-module counter stays below
10000, and two ids of the same millisecond agree on their first 12
characters — distinct counters change only the 4-character suffix. -/
theorem c6_unique_id_format : ∀ ts : Nat, 10 ^ 11 ≤ ts →
    (∀ prev : Nat,
      ((generateUniqueId ts prev).1).length = 16 ∧
      (∀ x ∈ (generateUniqueId ts prev).1, isDigitCh x = true) ∧
      (generateUniqueId ts prev).1 =
        lastN 12 (natDigits ts) ++ padStartZ 4 (natDigits ((prev + 1) % 10000)) ∧
      (prev + 1) % 10000 < 10000) ∧
    (∀ r : Nat, r < 10 →
      (generateUniqueIdStandalone ts r).length = 16 ∧
      (∀ x ∈ generateUniqueIdStandalone ts r, isDigitCh x = true) ∧
      generateUniqueIdStandalone ts r =
        lastN 12 (natDigits ts) ++ padStartZ 4 (natDigits ((r + 1) % 10000))) ∧
    (∀ c1 c2 : Nat, c1 < 10000 → c2 < 10000 →
      (uniqueIdCore ts c1).take 12 = (uniqueIdCore ts c2).take 12 ∧
      (c1 ≠ c2 → uniqueIdCore ts c1 ≠ uniqueIdCore ts c2)) := by
  intro ts hts
  refine ⟨?_, ?_, ?_⟩
  · intro prev
    have hmod : (prev + 1) % 10000 < 10000 := Nat.mod_lt _ (by omega)
    have hf := uniqueIdCore_facts hts hmod
    exact ⟨hf.1, hf.2.1, rfl, hmod⟩
  · intro r hr
    have hmod : (r + 1) % 10000 < 10000 := Nat.mod_lt _ (by omega)
    have hf := uniqueIdCore_facts hts hmod
    exact ⟨hf.1, hf.2.1, rfl⟩
  · intro c1 c2 h1 h2
    have hf1 := uniqueIdCore_facts hts h1
    have hf2 := uniqueIdCore_facts hts h2
    refine ⟨by rw [hf1.2.2.1, hf2.2.2.1], ?_⟩
    intro hne he
    have hdrop := congrArg (List.drop 12) he
    rw [hf1.2.2.2, hf2.2.2.2] at hdrop
    have hval := congrArg digitsVal hdrop
    rw [padStartZ_val, padStartZ_val, digitsVal_natDigits, digitsVal_natDigits] at hval
    exact hne hval

/-- Witness for C6 at a concrete timestamp and counter states. -/
theorem c6_unique_id_format_witness :
    ((generateUniqueId 1760000000000 0).1).length = 16 ∧
    uniqueIdCore 1760000000000 1 ≠ uniqueIdCore 1760000000000 2 :=
  ⟨((c6_unique_id_format 1760000000000 (by norm_num)).1 0).1,
   ((c6_unique_id_format 1760000000000 (by norm_num)).2.2 1 2 (by norm_num)
     (by norm_num)).2 (by norm_num)⟩

/-- The page array is always the singleton of the entry list (`[[]]` in
the degenerate case). -/
theorem pagesEq (es : List ChapEntry) :
    (if es.isEmpty = true then [([] : List ChapEntry)] else [es]) = [es] := by
  cases es with
  | nil => rfl
  | cons e r => rfl

/-- C8: exporting a document with an empty TOC whose content blocks
carry no chapter identifier synthesizes exactly one default chapter
(`Chapter 1`, slug `chapter_1`), and the single written chapter file
holds one page whose entries are exactly the trimmed texts of the blocks
with nonempty trimmed text, in order. -/
theorem c8_default_chapter (title desc outDir filePath bookId : Str) (g : GenSt)
    (content : List Block) (h : ∀ b ∈ content, b.chapter = none) :
    validChaptersOf [] content = [defaultChapter] ∧
    ∃ page : List ChapEntry,
      ((generateBookInfoFiles ⟨title, desc, [], content⟩ outDir filePath bookId
          g).1).chapterWrites =
        [(outDir ++ '/' :: (str "chapter_1" ++ str ".json"),
          ⟨str "Chapter 1", [], [page]⟩)] ∧
      page.map ChapEntry.en =
        (content.filter (fun b => !(trimStr b.text).isEmpty)).map
          (fun b => trimStr b.text) := by
  have hvc := validChaptersOf_default content h
  refine ⟨hvc, (buildEntries content g).1, ?_, buildEntries_en content g⟩
  show (buildChapterFiles outDir
      (groupContent (validChaptersOf [] content) content)
      (validChaptersOf [] content) g).1 = _
  rw [hvc]
  have hgroup : groupContent [defaultChapter] content =
      [(some (str "default"), content)] := by
    show content.foldl (assignBlock [defaultChapter])
        (initBuckets [defaultChapter]) = _
    rw [show initBuckets [defaultChapter] = [(some (str "default"), [])] from rfl,
      groupAll content [] h, List.nil_append]
  rw [hgroup]
  show [(outDir ++ '/' :: (str "chapter_1" ++ str ".json"),
      (⟨str "Chapter 1", [],
        if (buildEntries content g).1.isEmpty = true then [([] : List ChapEntry)]
        else [(buildEntries content g).1]⟩ : ChapterData))] = _
  rw [pagesEq]

/-- Witness for C8 at a concrete content list. -/
theorem c8_default_chapter_witness :
    validChaptersOf []
      [⟨str "para_0", .paragraph, str "Hello", none, none, none⟩] =
      [defaultChapter] ∧
    ∃ page : List ChapEntry,
      ((generateBookInfoFiles
          ⟨str "T", [], [], [⟨str "para_0", .paragraph, str "Hello", none, none,
            none⟩]⟩ (str "out") [] (str "bid") ⟨fun _ => 1760000000000, 0, 0⟩).1).chapterWrites =
        [(str "out" ++ '/' :: (str "chapter_1" ++ str ".json"),
          ⟨str "Chapter 1", [], [page]⟩)] ∧
      page.map ChapEntry.en =
        (([⟨str "para_0", .paragraph, str "Hello", none, none, none⟩] :
          List Block).filter (fun b => !(trimStr b.text).isEmpty)).map
            (fun b => trimStr b.text) :=
  c8_default_chapter (str "T") [] (str "out") [] (str "bid")
    ⟨fun _ => 1760000000000, 0, 0⟩
    [⟨str "para_0", .paragraph, str "Hello", none, none, none⟩] (by decide)

/-- Characters surviving the `D:`-strip come from the original string. -/
theorem stripDColon_subset (s : Str) : ∀ a ∈ stripDColon s, a ∈ s := by
  unfold stripDColon
  split
  · intro a ha
    simp [ha]
  · intro a ha
    exact ha

/-- C10: `safeParseDate` is total — for every input (null/undefined, the
empty string, digit-free strings, invalid dates) it returns without
throwing, and the result is either null or an ISO-8601 timestamp string;
unparsable inputs yield null. -/
theorem c10_safeParseDate_total :
    (∀ input : Option Str,
      safeParseDate input = none ∨
      ∃ t, safeParseDate input = some t ∧ isISOTimestamp t) ∧
    safeParseDate none = none ∧
    safeParseDate (some []) = none ∧
    (∀ s : Str, (∀ c ∈ s, isDigitCh c = false) → safeParseDate (some s) = none) := by
  refine ⟨?_, rfl, rfl, ?_⟩
  · intro input
    match input with
    | none => exact Or.inl rfl
    | some s =>
      unfold safeParseDate
      dsimp only
      by_cases hse : s.isEmpty = true
      · rw [if_pos hse]
        exact Or.inl rfl
      · rw [if_neg hse]
        split
        · next hv =>
          obtain ⟨h1, h2, h3, h4, h5⟩ := hv
          have hy4 : digitsVal ((padEnd14 ((stripDColon s).filter isDigitCh)).take 4) <
              10 ^ 4 := slice_lt s 0 4 (by omega)
          have hda31 := daysInMonth_le
            (digitsVal ((padEnd14 ((stripDColon s).filter isDigitCh)).take 4))
            (digitsVal (((padEnd14 ((stripDColon s).filter isDigitCh)).drop 4).take 2))
          split
          · next h24 =>
            right
            refine ⟨_, rfl, ?_⟩
            have hnb := nextDay_bounds (by omega) h4 hy4
            exact renderISO_shape hnb.1 hnb.2.1 hnb.2.2 (by omega) (by omega) (by omega)
          · next h24 =>
            right
            refine ⟨_, rfl, ?_⟩
            have hrest : digitsVal (((padEnd14 ((stripDColon s).filter
                isDigitCh)).drop 8).take 2) ≤ 23 ∧
                digitsVal (((padEnd14 ((stripDColon s).filter isDigitCh)).drop 10).take 2) ≤ 59 ∧
                digitsVal (((padEnd14 ((stripDColon s).filter isDigitCh)).drop 12).take 2) ≤ 59 := by
              rcases h5 with h5 | h5
              · exact h5
              · exact absurd h5.1 h24
            exact renderISO_shape (by omega) (by omega) (by omega) (by omega)
              (by omega) (by omega)
        · exact Or.inl rfl
  · intro s h
    unfold safeParseDate
    dsimp only
    by_cases hse : s.isEmpty = true
    · rw [if_pos hse]
    · rw [if_neg hse]
      have hfil : (stripDColon s).filter isDigitCh = [] := by
        rw [List.filter_eq_nil_iff]
        intro a ha
        simp [h a (stripDColon_subset s a ha)]
      rw [hfil]
      decide

/-- Witness for C10 at concrete inputs. -/
theorem c10_safeParseDate_total_witness :
    (safeParseDate (some (str "D:20240101120000")) = none ∨
      ∃ t, safeParseDate (some (str "D:20240101120000")) = some t ∧
        isISOTimestamp t) ∧
    safeParseDate (some (str "abc")) = none :=
  ⟨c10_safeParseDate_total.1 (some (str "D:20240101120000")),
   c10_safeParseDate_total.2.2.2 (str "abc") (by decide)⟩
